import Mathlib

/-!
Snake game (snake.js): state machine of the game core.

A shallow embedding of the game logic of `src/snake.js`: the module-level
variables become the fields of `Game`, every function that writes them
becomes a function on `Game`.

Modelling choices.

* `tilesX` and `tilesY` are `canvas.width / tileSize` and
  `canvas.height / tileSize`; the canvas belongs to the page, so both are
  parameters (`Config`), whole numbers of tiles.
* `Math.random()` is a number in `[0, 1)`: a `Sample` is a fraction
  `num / den` with `num < den`, and `Math.floor(r * n)` is `num * n / den`.
  The samples an operation draws are passed to it as a list;
  `spawnFood`, a `while (true)` loop, answers `none` when the list ends before
  a free cell was drawn (the loop has not returned within these samples).
* JavaScript numbers are integers of unbounded size (`Int`).
* `gameInterval` is `true` when it holds an interval id and `false` when it
  is `null`; the callback `update` fires only while an interval is set.
* `localStorage` is the record `Storage`: the best-score item as the raw
  string, the leaderboard item by what `JSON.parse` makes of its text (no
  item, text that does not parse, an array, another value).
* A call ends by returning or by a `TypeError` that leaves it (`Outcome`);
  a handler that throws leaves the variables as they are at the throw.
* Drawing and the text of DOM elements are left out; of
  `updateLeaderboardDisplay` only whether it throws is kept. The calls of
  `localStorage`, the canvas and the DOM themselves are taken not to fail.
-/

namespace Snake

/-- Grid size in tiles: `tilesX`, `tilesY`. -/
structure Config where
  tilesX : Nat
  tilesY : Nat
  deriving DecidableEq, Repr

/-- An object with fields `x` and `y`: a grid cell or a direction delta. -/
structure Cell where
  x : Int
  y : Int
  deriving DecidableEq, Repr

/-- One result of `Math.random()`: the fraction `num / den`, below 1. -/
structure Sample where
  num : Nat
  den : Nat
  lt : num < den

/-- A leaderboard entry `{ score, date }`. -/
structure Entry where
  score : Int
  date : String
  deriving DecidableEq, Repr

/-- An element of a stored leaderboard array: JSON `null`, an entry, or any
other JSON value, kept as its text. -/
inductive Item where
  | null
  | entry (e : Entry)
  | other (text : String)
  deriving DecidableEq, Repr

/-- The leaderboard item of `localStorage`, by what `loadLeaderboard` meets:
no item (or the empty string), text on which `JSON.parse` throws, the text of
an array, the text of another JSON value such as `{}`, `null` or `5`. -/
inductive StoredBoard where
  | missing
  | malformed (raw : String)
  | array (items : List Item)
  | nonArray (raw : String)
  deriving DecidableEq, Repr

/-- The value `loadLeaderboard` returns: an array, or a value that is not an
array and so has no `push` and no `sort`. -/
inductive Board where
  | array (items : List Item)
  | other
  deriving DecidableEq, Repr

/-- The two `localStorage` items the game uses. -/
structure Storage where
  bestScore : Option String
  leaderboard : StoredBoard
  deriving DecidableEq, Repr

/-- The module-level variables of `snake.js` and the storage. -/
structure Game where
  snake : List Cell
  direction : Cell
  nextDirection : Cell
  food : Cell
  score : Int
  bestScore : Int
  gameInterval : Bool
  isRunning : Bool
  isGameOver : Bool
  storage : Storage
  deriving DecidableEq, Repr

/-- How a call ends: it returns, or a `TypeError` leaves it; either way with
the variables and the store as they are at that point. -/
inductive Outcome where
  | returned (s : Game)
  | threw (s : Game)
  deriving DecidableEq, Repr

/-- The variables and the store when the call has ended. -/
def Outcome.state : Outcome → Game
  | .returned s => s
  | .threw s => s

/-! ## Best score storage -/

/-- White space that `parseInt` skips (`StrWhiteSpaceChar`). -/
def isStrWhiteSpace (c : Char) : Bool :=
  let n := c.toNat
  n == 9 || n == 10 || n == 11 || n == 12 || n == 13 || n == 32 || n == 160 ||
  n == 5760 || (8192 ≤ n && n ≤ 8202) || n == 8232 || n == 8233 || n == 8239 ||
  n == 8287 || n == 12288 || n == 65279

/-- Value of the longest prefix of decimal digits, read left to right from
the accumulator `acc`. -/
def parseDigits : List Char → Nat → Nat
  | [], acc => acc
  | c :: cs, acc => if c.isDigit then parseDigits cs (acc * 10 + (c.toNat - 48)) else acc

/-- JavaScript `parseInt(raw, 10)`; `none` stands for `NaN`. -/
def parseInt (raw : String) : Option Int :=
  let cs := raw.toList.dropWhile isStrWhiteSpace
  match cs with
  | [] => none
  | c :: rest =>
    let neg := c == '-'
    let body := if c == '-' || c == '+' then rest else cs
    match body with
    | [] => none
    | d :: _ =>
      if d.isDigit then
        some (if neg then -((parseDigits body 0 : Nat) : Int) else ((parseDigits body 0 : Nat) : Int))
      else none

/-- Source `loadBestScore`: 0 for a missing or empty item and for `NaN`. -/
def loadBestScore (st : Storage) : Int :=
  match st.bestScore with
  | none => 0
  | some raw =>
    if raw = "" then 0
    else
      match parseInt raw with
      | none => 0
      | some val => val

/-- Source `saveBestScore`: stores `String(val)`. -/
def saveBestScore (val : Int) (s : Game) : Game :=
  { s with storage := { s.storage with bestScore := some (toString val) } }

/-! ## Leaderboard -/

/-- Source `loadLeaderboard`: `[]` without an item and when `JSON.parse`
throws, else whatever `JSON.parse` returns, array or not. -/
def loadLeaderboard (st : Storage) : Board :=
  match st.leaderboard with
  | .missing => .array []
  | .malformed _ => .array []
  | .array items => .array items
  | .nonArray _ => .other

/-- Source `saveLeaderboard`: stores the text of the array. -/
def saveLeaderboard (board : List Item) (s : Game) : Game :=
  { s with storage := { s.storage with leaderboard := .array board } }

/-- Source `updateLeaderboardDisplay`, as far as it can throw: `board.sort`
is not a function when the stored value is not an array, and reading
`.score` of a `null` element throws, in the comparator of `sort` or, for a
single element, in `forEach`. -/
def updateLeaderboardDisplay (s : Game) : Outcome :=
  match loadLeaderboard s.storage with
  | .other => .threw s
  | .array board => if Item.null ∈ board then .threw s else .returned s

/-- Source `addScoreToLeaderboard`; `now` is the formatted date and time.
On a stored value that is not an array `board.push` is not a function: the
call throws before anything is saved. -/
def addScoreToLeaderboard (now : String) (score : Int) (s : Game) : Outcome :=
  if score ≤ 0 then .returned s
  else
    match loadLeaderboard s.storage with
    | .other => .threw s
    | .array board =>
      let entry : Entry := { score := score, date := now }
      updateLeaderboardDisplay (saveLeaderboard (board ++ [.entry entry]) s)

/-! ## Food -/

/-- Source `randomPosition`: `x` is drawn first, then `y`. -/
def randomPosition (cfg : Config) (rx ry : Sample) : Cell :=
  { x := ((rx.num * cfg.tilesX / rx.den : Nat) : Int),
    y := ((ry.num * cfg.tilesY / ry.den : Nat) : Int) }

/-- Source `spawnFood`: draw positions until one is not on the snake. -/
def spawnFood (cfg : Config) : List Sample → Game → Option Game
  | rx :: ry :: rest, s =>
    let pos := randomPosition cfg rx ry
    let onSnake := s.snake.any (fun segment => segment.x == pos.x && segment.y == pos.y)
    if !onSnake then some { s with food := pos }
    else spawnFood cfg rest s
  | _, _ => none

/-! ## Game loop control -/

/-- Source `startGameLoop`. -/
def startGameLoop (s : Game) : Game :=
  if s.gameInterval then s else { s with gameInterval := true }

/-- Source `stopGameLoop`. -/
def stopGameLoop (s : Game) : Game :=
  if s.gameInterval then { s with gameInterval := false } else s

/-! ## Reset and initialization -/

/-- Source `initGame`. -/
def initGame (cfg : Config) (rs : List Sample) (s : Game) : Option Game :=
  spawnFood cfg rs
    { s with
      snake := [ { x := ((cfg.tilesX / 2 : Nat) : Int), y := ((cfg.tilesY / 2 : Nat) : Int) },
                 { x := ((cfg.tilesX / 2 : Nat) : Int) - 1, y := ((cfg.tilesY / 2 : Nat) : Int) } ],
      direction := { x := 1, y := 0 },
      nextDirection := { x := 1, y := 0 },
      score := 0,
      isGameOver := false }

/-- Source `resetGame`. -/
def resetGame (cfg : Config) (rs : List Sample) (s : Game) : Option Game :=
  initGame cfg rs { stopGameLoop s with isRunning := false }

/-! ## Update -/

/-- Source `handleGameOver`; after `addScoreToLeaderboard` only drawing
follows. -/
def handleGameOver (now : String) (s : Game) : Outcome :=
  let s1 := stopGameLoop { s with isGameOver := true }
  addScoreToLeaderboard now s1.score s1

/-- Source `update`, one tick. With an empty `snake` the head would have
`NaN` coordinates: it passes both collision tests, is not the food, and is
popped again right after the `unshift`, which leaves `snake` empty. -/
def update (cfg : Config) (now : String) (rs : List Sample) (s : Game) : Option Outcome :=
  if s.isGameOver then some (.returned s)
  else
    let s1 := { s with direction := s.nextDirection }
    match s1.snake with
    | [] => some (.returned s1)
    | seg0 :: _ =>
      let head : Cell := { x := seg0.x + s1.direction.x, y := seg0.y + s1.direction.y }
      if head.x < 0 ∨ head.x ≥ (cfg.tilesX : Int) ∨ head.y < 0 ∨ head.y ≥ (cfg.tilesY : Int) then
        some (handleGameOver now s1)
      else if s1.snake.any (fun segment => segment.x == head.x && segment.y == head.y) then
        some (handleGameOver now s1)
      else
        let s2 := { s1 with snake := head :: s1.snake }
        if head.x = s2.food.x ∧ head.y = s2.food.y then
          let s3 := { s2 with score := s2.score + 10 }
          let s4 :=
            if s3.score > s3.bestScore then saveBestScore s3.score { s3 with bestScore := s3.score }
            else s3
          (spawnFood cfg rs s4).map .returned
        else
          some (.returned { s2 with snake := s2.snake.dropLast })

/-- Source `toggleStartPause`. -/
def toggleStartPause (cfg : Config) (rs : List Sample) (s : Game) : Option Game :=
  if s.isGameOver then
    (resetGame cfg rs s).map (fun s1 => startGameLoop { s1 with isRunning := true })
  else if !s.isRunning then
    some (startGameLoop { s with isRunning := true })
  else
    some (stopGameLoop { s with isRunning := false })

/-! ## Input -/

/-- The `keydown` listener; `key` is `e.key`. -/
def keydown (cfg : Config) (rs : List Sample) (key : String) (s : Game) : Option Game :=
  if key = "ArrowUp" ∨ key = "w" ∨ key = "W" then
    some (if s.direction.y ≠ 1 then { s with nextDirection := { x := 0, y := -1 } } else s)
  else if key = "ArrowDown" ∨ key = "s" ∨ key = "S" then
    some (if s.direction.y ≠ -1 then { s with nextDirection := { x := 0, y := 1 } } else s)
  else if key = "ArrowLeft" ∨ key = "a" ∨ key = "A" then
    some (if s.direction.x ≠ 1 then { s with nextDirection := { x := -1, y := 0 } } else s)
  else if key = "ArrowRight" ∨ key = "d" ∨ key = "D" then
    some (if s.direction.x ≠ -1 then { s with nextDirection := { x := 1, y := 0 } } else s)
  else if key = " " then
    if s.isGameOver then
      (resetGame cfg rs s).map (fun s1 => startGameLoop { s1 with isRunning := true })
    else toggleStartPause cfg rs s
  else some s

/-- The values of the module-level variables when the script has been read,
before `init` runs. `snake`, `direction`, `nextDirection` and `food` are
still undefined there; `initGame` assigns all four. -/
def loaded (st : Storage) : Game :=
  { snake := [], direction := { x := 0, y := 0 }, nextDirection := { x := 0, y := 0 },
    food := { x := 0, y := 0 }, score := 0, bestScore := 0, gameInterval := false,
    isRunning := false, isGameOver := false, storage := st }

/-- Source `init`, run once on load. When `updateLeaderboardDisplay` throws,
`initGame` is not reached. -/
def init (cfg : Config) (st : Storage) (rs : List Sample) : Option Outcome :=
  match updateLeaderboardDisplay { loaded st with bestScore := loadBestScore st } with
  | .threw s => some (.threw s)
  | .returned s => (initGame cfg rs s).map .returned

/-! ## Events and reachable states -/

/-- What can happen after load: the interval fires, a key goes down, one of
the two buttons is clicked. Each carries the samples and the clock reading
its handler consumes. -/
inductive Event where
  | tick (now : String) (rs : List Sample)
  | key (k : String) (rs : List Sample)
  | startPauseClick (rs : List Sample)
  | restartClick (rs : List Sample)

/-- The state after the handler of an event has ended, by returning or by
throwing. The interval callback runs only while an interval is set. -/
def step (cfg : Config) (e : Event) (s : Game) : Option Game :=
  match e with
  | .tick now rs => if s.gameInterval then (update cfg now rs s).map Outcome.state else none
  | .key k rs => keydown cfg rs k s
  | .startPauseClick rs => toggleStartPause cfg rs s
  | .restartClick rs => resetGame cfg rs s

/-- States the page can be in, once `initGame` has run, after loading with
storage `st`. When the load throws before `initGame`, the variables `snake`,
`direction`, `nextDirection` and `food` stay undefined: until Restart is
clicked, a tick or a direction key throws on reading them and changes
nothing, Start/Pause and Space only switch `isRunning` and the interval
together (`started`); the first Restart then assigns them all. -/
inductive Reachable (cfg : Config) (st : Storage) : Game → Prop where
  | init (rs : List Sample) (s : Game) (h : init cfg st rs = some (.returned s)) :
      Reachable cfg st s
  | recover (rs0 rs : List Sample) (s0 s : Game) (started : Bool)
      (h0 : init cfg st rs0 = some (.threw s0))
      (h : resetGame cfg rs { s0 with isRunning := started, gameInterval := started } = some s) :
      Reachable cfg st s
  | step (e : Event) (s s1 : Game) (hs : Reachable cfg st s) (h : step cfg e s = some s1) :
      Reachable cfg st s1

/-- Delta of Up: `{ x: 0, y: -1 }`. -/
def dirUp : Cell := { x := 0, y := -1 }

/-- Delta of Down: `{ x: 0, y: 1 }`. -/
def dirDown : Cell := { x := 0, y := 1 }

/-- Delta of Left: `{ x: -1, y: 0 }`. -/
def dirLeft : Cell := { x := -1, y := 0 }

/-- Delta of Right: `{ x: 1, y: 0 }`. -/
def dirRight : Cell := { x := 1, y := 0 }

/-- The exact opposite of a delta. -/
def opposite (d : Cell) : Cell := { x := -d.x, y := -d.y }

/-- A cell of the grid. -/
def insideGrid (cfg : Config) (c : Cell) : Prop :=
  0 ≤ c.x ∧ c.x < (cfg.tilesX : Int) ∧ 0 ≤ c.y ∧ c.y < (cfg.tilesY : Int)

instance (cfg : Config) (c : Cell) : Decidable (insideGrid cfg c) := by
  unfold insideGrid; infer_instance

/-- The sample 1/2. -/
def half : Sample := ⟨1, 2, by decide⟩

/-- The sample 0. -/
def zeroSample : Sample := ⟨0, 1, by decide⟩

/-- The sample 6/10. -/
def sixTenths : Sample := ⟨6, 10, by decide⟩

/-- Some position drawn from `rs` (samples are used in pairs) is off `snake`. -/
def DrawsFree (cfg : Config) (snake : List Cell) (rs : List Sample) : Prop :=
  ∃ k rx ry, rs.get? (2 * k) = some rx ∧ rs.get? (2 * k + 1) = some ry ∧
    randomPosition cfg rx ry ∉ snake

/-- The candidate head of a tick: the old head moved by `nextDirection`. -/
def newHead (s : Game) (seg0 : Cell) : Cell :=
  { x := seg0.x + s.nextDirection.x, y := seg0.y + s.nextDirection.y }

/-- The state of a tick that eats, just before `spawnFood`: the head is
prepended, the score and, when exceeded, the best score are updated. -/
def eaten (s : Game) (head : Cell) : Game :=
  if s.score + 10 > s.bestScore then
    { s with
      direction := s.nextDirection, snake := head :: s.snake, score := s.score + 10,
      bestScore := s.score + 10,
      storage := { s.storage with bestScore := some (toString (s.score + 10)) } }
  else
    { s with direction := s.nextDirection, snake := head :: s.snake, score := s.score + 10 }

/-- The leaderboard item after `handleGameOver`: with a positive score and a
stored array (or none, or text that does not parse) the array with the new
entry at the end; otherwise what was stored. -/
def boardAfterGameOver (now : String) (s : Game) : StoredBoard :=
  if s.score ≤ 0 then s.storage.leaderboard
  else
    match loadLeaderboard s.storage with
    | .other => s.storage.leaderboard
    | .array board => .array (board ++ [.entry { score := s.score, date := now }])

/-- The body `initGame` assigns. -/
def initialSnake (cfg : Config) : List Cell :=
  [ { x := ((cfg.tilesX / 2 : Nat) : Int), y := ((cfg.tilesY / 2 : Nat) : Int) },
    { x := ((cfg.tilesX / 2 : Nat) : Int) - 1, y := ((cfg.tilesY / 2 : Nat) : Int) } ]

/-- One of the four direction deltas. -/
def IsDir (d : Cell) : Prop :=
  d = dirUp ∨ d = dirDown ∨ d = dirLeft ∨ d = dirRight

/-- Invariant of the reachable states. -/
structure Inv (s : Game) : Prop where
  nodup : s.snake.Nodup
  len : 2 ≤ s.snake.length
  dir : IsDir s.direction
  next : IsDir s.nextDirection
  norev : s.nextDirection ≠ opposite s.direction
  score : 0 ≤ s.score
  timer : s.gameInterval = (s.isRunning && !s.isGameOver)

/-- Invariant of the best score, for a stored best score that is not negative. -/
def BestInv (s : Game) : Prop :=
  0 ≤ s.bestScore ∧ s.score ≤ s.bestScore

/-- The tick from `s` eats: the game is on, the candidate head is inside the
grid, off the body and on the food. -/
def Eats (cfg : Config) (s : Game) : Prop :=
  s.isGameOver = false ∧ ∃ seg0 rest, s.snake = seg0 :: rest ∧
    insideGrid cfg (newHead s seg0) ∧ newHead s seg0 ∉ s.snake ∧ newHead s seg0 = s.food

/-- The direction a key asks for, as the `keydown` listener groups the keys. -/
def requestedDirection (key : String) : Option Cell :=
  if key = "ArrowUp" ∨ key = "w" ∨ key = "W" then some dirUp
  else if key = "ArrowDown" ∨ key = "s" ∨ key = "S" then some dirDown
  else if key = "ArrowLeft" ∨ key = "a" ∨ key = "A" then some dirLeft
  else if key = "ArrowRight" ∨ key = "d" ∨ key = "D" then some dirRight
  else none

/-! ## Concrete runs -/

/-- A 10 by 10 grid. -/
def grid10 : Config := { tilesX := 10, tilesY := 10 }

/-- Nothing stored yet. -/
def emptyStorage : Storage := { bestScore := none, leaderboard := .missing }

/-- The scenario of the specification: snake `[(5,5),(4,5)]` heading right,
food at `(6,5)`, game running. -/
def scenario : Game :=
  { snake := [{ x := 5, y := 5 }, { x := 4, y := 5 }], direction := dirRight,
    nextDirection := dirRight, food := { x := 6, y := 5 }, score := 0, bestScore := 0,
    gameInterval := true, isRunning := true, isGameOver := false, storage := emptyStorage }

/-- The scenario one tick later, when the food is respawned at `(0,0)`. -/
def scenarioAfter : Game :=
  { scenario with
    snake := [{ x := 6, y := 5 }, { x := 5, y := 5 }, { x := 4, y := 5 }],
    score := 10, bestScore := 10, food := { x := 0, y := 0 },
    storage := { bestScore := some "10", leaderboard := .missing } }

/-- The state right after loading on the 10 by 10 grid when the first drawn
position is `(0,0)`: nothing runs yet. -/
def idleState : Game :=
  { snake := [{ x := 5, y := 5 }, { x := 4, y := 5 }], direction := dirRight,
    nextDirection := dirRight, food := { x := 0, y := 0 }, score := 0, bestScore := 0,
    gameInterval := false, isRunning := false, isGameOver := false, storage := emptyStorage }

/-- A running game about to leave the grid on the left, with 20 points. -/
def atLeftWall : Game :=
  { snake := [{ x := 0, y := 5 }, { x := 1, y := 5 }], direction := dirLeft,
    nextDirection := dirLeft, food := { x := 7, y := 7 }, score := 20, bestScore := 30,
    gameInterval := true, isRunning := true, isGameOver := false, storage := emptyStorage }

/-- A game that has ended at the left wall with 20 points, the interval
cleared and the score on the leaderboard. -/
def endedGame : Game :=
  { snake := [{ x := 0, y := 5 }, { x := 1, y := 5 }], direction := dirLeft,
    nextDirection := dirLeft, food := { x := 7, y := 7 }, score := 20, bestScore := 30,
    gameInterval := false, isRunning := true, isGameOver := true,
    storage :=
      { bestScore := some "30",
        leaderboard := .array [.entry { score := 20, date := "noon" }] } }

/-- A store whose leaderboard item is the text `{}`: it parses, to a value
that is not an array. -/
def objectStorage : Storage := { bestScore := none, leaderboard := .nonArray "{}" }

/-- A game loaded over `objectStorage` and started with Restart and Start,
after the snake has eaten once and run on to the right wall: head at
`(9,5)`, 10 points. -/
def atRightWall : Game :=
  { snake := [{ x := 9, y := 5 }, { x := 8, y := 5 }, { x := 7, y := 5 }],
    direction := dirRight, nextDirection := dirRight, food := { x := 0, y := 0 }, score := 10,
    bestScore := 10, gameInterval := true, isRunning := true, isGameOver := false,
    storage := { bestScore := some "10", leaderboard := .nonArray "{}" } }

/-- The states after a list of events, handled one after the other. -/
def runEvents (cfg : Config) : List Event → Game → Option Game
  | [], s => some s
  | e :: es, s => (step cfg e s).bind (runEvents cfg es)

/-- A store whose best-score item reads `-5`. -/
def negativeStorage : Storage := { bestScore := some "-5", leaderboard := .missing }

/-- The state right after loading from `negativeStorage` when the first drawn
position is `(0,0)`. -/
def negativeLoaded : Game :=
  { idleState with bestScore := -5, storage := negativeStorage }

/-- An operation that leaves the best score and the store alone and keeps
the score or resets it to 0. -/
def KeepsBest (s s1 : Game) : Prop :=
  s1.bestScore = s.bestScore ∧ s1.storage = s.storage ∧ (s1.score = s.score ∨ s1.score = 0)

/-! ## Lemmas on the operations -/

theorem list_pair_induction {α : Type} (P : List α → Prop) (h0 : P [])
    (h1 : ∀ a, P [a]) (h2 : ∀ a b l, P l → P (a :: b :: l)) : ∀ l, P l := by
  have key : ∀ l, P l ∧ ∀ a, P (a :: l) := by
    intro l
    induction l with
    | nil => exact ⟨h0, h1⟩
    | cons b l ih => exact ⟨ih.2 b, fun a => h2 a b l ih.1⟩
  exact fun l => (key l).1

theorem any_same_cell (l : List Cell) (p : Cell) :
    l.any (fun segment => segment.x == p.x && segment.y == p.y) = true ↔ p ∈ l := by
  induction l with
  | nil => simp
  | cons a l ih =>
    rw [List.any_cons, Bool.or_eq_true, ih, List.mem_cons]
    constructor
    · rintro (h | h)
      · left
        simp at h
        cases a; cases p; simp_all
      · right; exact h
    · rintro (h | h)
      · left; subst h; simp
      · right; exact h

theorem randomPosition_inside (cfg : Config) (rx ry : Sample) (hx : 0 < cfg.tilesX)
    (hy : 0 < cfg.tilesY) : insideGrid cfg (randomPosition cfg rx ry) := by
  have h1 : rx.num * cfg.tilesX / rx.den < cfg.tilesX := by
    have hd : 0 < rx.den := Nat.lt_of_le_of_lt (Nat.zero_le _) rx.lt
    rw [Nat.div_lt_iff_lt_mul hd]
    calc rx.num * cfg.tilesX < rx.den * cfg.tilesX := Nat.mul_lt_mul_of_pos_right rx.lt hx
      _ = cfg.tilesX * rx.den := Nat.mul_comm _ _
  have h2 : ry.num * cfg.tilesY / ry.den < cfg.tilesY := by
    have hd : 0 < ry.den := Nat.lt_of_le_of_lt (Nat.zero_le _) ry.lt
    rw [Nat.div_lt_iff_lt_mul hd]
    calc ry.num * cfg.tilesY < ry.den * cfg.tilesY := Nat.mul_lt_mul_of_pos_right ry.lt hy
      _ = cfg.tilesY * ry.den := Nat.mul_comm _ _
  exact ⟨Int.ofNat_nonneg _, Int.ofNat_lt.2 h1, Int.ofNat_nonneg _, Int.ofNat_lt.2 h2⟩

theorem spawnFood_cons (cfg : Config) (rx ry : Sample) (rest : List Sample) (s : Game) :
    spawnFood cfg (rx :: ry :: rest) s =
      if randomPosition cfg rx ry ∈ s.snake then spawnFood cfg rest s
      else some { s with food := randomPosition cfg rx ry } := by
  rw [spawnFood]
  by_cases h : randomPosition cfg rx ry ∈ s.snake
  · have := (any_same_cell s.snake _).2 h
    simp [this, h]
  · have : s.snake.any (fun segment => segment.x == (randomPosition cfg rx ry).x &&
        segment.y == (randomPosition cfg rx ry).y) = false := by
      rw [Bool.eq_false_iff]; intro hh; exact h ((any_same_cell _ _).1 hh)
    simp [this, h]

theorem spawnFood_short (cfg : Config) (s : Game) :
    spawnFood cfg [] s = none ∧ ∀ r, spawnFood cfg [r] s = none := by
  exact ⟨rfl, fun _ => rfl⟩

/-- What `spawnFood` returns: the same state with a new `food`, which is a
drawn position off the snake. -/
theorem spawnFood_some (cfg : Config) (rs : List Sample) (s s1 : Game)
    (h : spawnFood cfg rs s = some s1) :
    ∃ rx ry, s1 = { s with food := randomPosition cfg rx ry } ∧
      randomPosition cfg rx ry ∉ s.snake := by
  induction rs using list_pair_induction with
  | h0 => rw [(spawnFood_short cfg s).1] at h; cases h
  | h1 r => rw [(spawnFood_short cfg s).2] at h; cases h
  | h2 rx ry rest ih =>
    rw [spawnFood_cons] at h
    by_cases hm : randomPosition cfg rx ry ∈ s.snake
    · rw [if_pos hm] at h; exact ih h
    · rw [if_neg hm] at h
      exact ⟨rx, ry, (Option.some.inj h).symm, hm⟩

/-- The loop of `spawnFood` returns exactly when a drawn position is free. -/
theorem spawnFood_isSome_iff (cfg : Config) (rs : List Sample) (s : Game) :
    (∃ s1, spawnFood cfg rs s = some s1) ↔ DrawsFree cfg s.snake rs := by
  induction rs using list_pair_induction with
  | h0 =>
    rw [(spawnFood_short cfg s).1]
    constructor
    · rintro ⟨_, h⟩; cases h
    · rintro ⟨k, rx, ry, h, _⟩; simp at h
  | h1 r =>
    rw [(spawnFood_short cfg s).2]
    constructor
    · rintro ⟨_, h⟩; cases h
    · rintro ⟨k, rx, ry, _, h, _⟩; simp at h
  | h2 rx ry rest ih =>
    rw [spawnFood_cons]
    by_cases hm : randomPosition cfg rx ry ∈ s.snake
    · rw [if_pos hm, ih]
      constructor
      · rintro ⟨k, a, b, h1, h2, h3⟩
        refine ⟨k + 1, a, b, ?_, ?_, h3⟩
        · rw [show 2 * (k + 1) = 2 * k + 1 + 1 by ring]; simpa using h1
        · rw [show 2 * (k + 1) + 1 = 2 * k + 1 + 1 + 1 by ring]; simpa using h2
      · rintro ⟨k, a, b, h1, h2, h3⟩
        cases k with
        | zero =>
          simp at h1 h2
          subst h1; subst h2
          exact absurd hm h3
        | succ k =>
          refine ⟨k, a, b, ?_, ?_, h3⟩
          · rw [show 2 * (k + 1) = 2 * k + 1 + 1 by ring] at h1; simpa using h1
          · rw [show 2 * (k + 1) + 1 = 2 * k + 1 + 1 + 1 by ring] at h2; simpa using h2
    · rw [if_neg hm]
      constructor
      · intro _
        exact ⟨0, rx, ry, by simp, by simp, hm⟩
      · intro _
        exact ⟨_, rfl⟩

/-! ### The four outcomes of a tick -/

theorem update_gameOver (cfg : Config) (now : String) (rs : List Sample) (s : Game)
    (h : s.isGameOver = true) : update cfg now rs s = some (.returned s) := by
  simp [update, h]

theorem update_nil (cfg : Config) (now : String) (rs : List Sample) (s : Game)
    (hgo : s.isGameOver = false) (hs : s.snake = []) :
    update cfg now rs s = some (.returned { s with direction := s.nextDirection }) := by
  simp [update, hgo, hs]

theorem update_collide (cfg : Config) (now : String) (rs : List Sample) (s : Game)
    (seg0 : Cell) (rest : List Cell) (hgo : s.isGameOver = false) (hs : s.snake = seg0 :: rest)
    (hc : ¬ insideGrid cfg (newHead s seg0) ∨ newHead s seg0 ∈ s.snake) :
    update cfg now rs s = some (handleGameOver now { s with direction := s.nextDirection }) := by
  have hany := any_same_cell s.snake (newHead s seg0)
  rw [hs] at hany
  unfold update
  simp only [hgo, hs, Bool.false_eq_true, if_false]
  by_cases hw : seg0.x + s.nextDirection.x < 0 ∨ seg0.x + s.nextDirection.x ≥ (cfg.tilesX : Int) ∨
      seg0.y + s.nextDirection.y < 0 ∨ seg0.y + s.nextDirection.y ≥ (cfg.tilesY : Int)
  · rw [if_pos hw]
  · rw [if_neg hw]
    rcases hc with hc | hc
    · exfalso; apply hc
      unfold insideGrid newHead
      simp only
      omega
    · rw [hs] at hc
      have := hany.2 hc
      unfold newHead at this
      rw [if_pos this]

theorem update_eat (cfg : Config) (now : String) (rs : List Sample) (s : Game)
    (seg0 : Cell) (rest : List Cell) (hgo : s.isGameOver = false) (hs : s.snake = seg0 :: rest)
    (hi : insideGrid cfg (newHead s seg0)) (hn : newHead s seg0 ∉ s.snake)
    (hf : newHead s seg0 = s.food) :
    update cfg now rs s =
      (spawnFood cfg rs (eaten s (newHead s seg0))).map Outcome.returned := by
  have hany := any_same_cell s.snake (newHead s seg0)
  rw [hs] at hany hn
  have hw : ¬ (seg0.x + s.nextDirection.x < 0 ∨ seg0.x + s.nextDirection.x ≥ (cfg.tilesX : Int) ∨
      seg0.y + s.nextDirection.y < 0 ∨ seg0.y + s.nextDirection.y ≥ (cfg.tilesY : Int)) := by
    unfold insideGrid newHead at hi
    simp only at hi
    omega
  have hself : ¬ ((seg0 :: rest).any (fun segment => segment.x == (newHead s seg0).x &&
      segment.y == (newHead s seg0).y) = true) := fun h => hn (hany.1 h)
  have hfx : seg0.x + s.nextDirection.x = s.food.x ∧ seg0.y + s.nextDirection.y = s.food.y := by
    rw [← hf]; exact ⟨rfl, rfl⟩
  unfold newHead at hself
  unfold update eaten saveBestScore
  simp only [hgo, hs, Bool.false_eq_true, if_false]
  rw [if_neg hw, if_neg hself, if_pos hfx]
  unfold newHead
  by_cases hb : s.score + 10 > s.bestScore
  · simp only [if_pos hb, hs]
  · simp only [if_neg hb, hs]

theorem update_move (cfg : Config) (now : String) (rs : List Sample) (s : Game)
    (seg0 : Cell) (rest : List Cell) (hgo : s.isGameOver = false) (hs : s.snake = seg0 :: rest)
    (hi : insideGrid cfg (newHead s seg0)) (hn : newHead s seg0 ∉ s.snake)
    (hf : newHead s seg0 ≠ s.food) :
    update cfg now rs s =
      some (.returned
        { s with direction := s.nextDirection, snake := newHead s seg0 :: s.snake.dropLast }) := by
  have hany := any_same_cell s.snake (newHead s seg0)
  rw [hs] at hany hn
  have hw : ¬ (seg0.x + s.nextDirection.x < 0 ∨ seg0.x + s.nextDirection.x ≥ (cfg.tilesX : Int) ∨
      seg0.y + s.nextDirection.y < 0 ∨ seg0.y + s.nextDirection.y ≥ (cfg.tilesY : Int)) := by
    unfold insideGrid newHead at hi
    simp only at hi
    omega
  have hself : ¬ ((seg0 :: rest).any (fun segment => segment.x == (newHead s seg0).x &&
      segment.y == (newHead s seg0).y) = true) := fun h => hn (hany.1 h)
  have hfx : ¬ (seg0.x + s.nextDirection.x = s.food.x ∧ seg0.y + s.nextDirection.y = s.food.y) := by
    rintro ⟨h1, h2⟩
    apply hf
    unfold newHead
    cases hfood : s.food
    rw [hfood] at h1 h2
    simp only at h1 h2
    rw [h1, h2]
  unfold newHead at hself
  unfold update
  simp only [hgo, hs, Bool.false_eq_true, if_false]
  rw [if_neg hw, if_neg hself, if_neg hfx]
  unfold newHead
  simp only [List.dropLast_cons₂]

/-! ### Shape of the results -/

theorem stopGameLoop_eq (s : Game) : stopGameLoop s = { s with gameInterval := false } := by
  unfold stopGameLoop
  cases h : s.gameInterval
  · cases s; simp_all
  · simp

theorem startGameLoop_eq (s : Game) : startGameLoop s = { s with gameInterval := true } := by
  unfold startGameLoop
  cases h : s.gameInterval
  · simp
  · cases s; simp_all

theorem isDir_not_rev (d : Cell) (h : IsDir d) : d ≠ opposite d := by
  rcases h with h | h | h | h <;> subst h <;> decide

theorem initialSnake_nodup (cfg : Config) : (initialSnake cfg).Nodup := by
  unfold initialSnake
  simp only [List.nodup_cons, List.mem_singleton, List.not_mem_nil, not_false_eq_true,
    List.nodup_nil, and_true]
  intro h
  have := congrArg Cell.x h
  simp only at this
  omega

theorem initGame_some (cfg : Config) (rs : List Sample) (s s1 : Game)
    (h : initGame cfg rs s = some s1) :
    ∃ rx ry, randomPosition cfg rx ry ∉ initialSnake cfg ∧
      s1 = { s with
        snake := initialSnake cfg, direction := dirRight, nextDirection := dirRight,
        food := randomPosition cfg rx ry, score := 0, isGameOver := false } := by
  unfold initGame at h
  obtain ⟨rx, ry, h1, h2⟩ := spawnFood_some _ _ _ _ h
  exact ⟨rx, ry, h2, h1⟩

theorem resetGame_some (cfg : Config) (rs : List Sample) (s s1 : Game)
    (h : resetGame cfg rs s = some s1) :
    ∃ rx ry, randomPosition cfg rx ry ∉ initialSnake cfg ∧
      s1 = { s with
        snake := initialSnake cfg, direction := dirRight, nextDirection := dirRight,
        food := randomPosition cfg rx ry, score := 0, isGameOver := false,
        isRunning := false, gameInterval := false } := by
  unfold resetGame at h
  rw [stopGameLoop_eq] at h
  obtain ⟨rx, ry, h1, h2⟩ := initGame_some _ _ _ _ h
  exact ⟨rx, ry, h1, h2⟩

theorem updateLeaderboardDisplay_state (s : Game) : (updateLeaderboardDisplay s).state = s := by
  unfold updateLeaderboardDisplay
  cases loadLeaderboard s.storage with
  | other => rfl
  | array board =>
    by_cases h : Item.null ∈ board
    · simp only [if_pos h]; rfl
    · simp only [if_neg h]; rfl

theorem handleGameOver_state (now : String) (s : Game) :
    (handleGameOver now s).state =
      { s with
        isGameOver := true, gameInterval := false,
        storage := { s.storage with leaderboard := boardAfterGameOver now s } } := by
  unfold handleGameOver
  simp only [stopGameLoop_eq]
  unfold addScoreToLeaderboard boardAfterGameOver
  by_cases h : s.score ≤ 0
  · simp only [if_pos h]; rfl
  · simp only [if_neg h]
    cases hb : loadLeaderboard s.storage with
    | other => rfl
    | array board =>
      simp only [updateLeaderboardDisplay_state]
      rfl

/-- When `handleGameOver` throws: the score is positive and the stored
leaderboard is not an array or has a `null` element. -/
theorem handleGameOver_threw_iff (now : String) (s : Game) :
    (∃ s1, handleGameOver now s = .threw s1) ↔
      0 < s.score ∧ (loadLeaderboard s.storage = .other ∨
        ∃ board, loadLeaderboard s.storage = .array board ∧ Item.null ∈ board) := by
  unfold handleGameOver
  simp only [stopGameLoop_eq]
  unfold addScoreToLeaderboard
  by_cases h : s.score ≤ 0
  · simp only [if_pos h]
    constructor
    · rintro ⟨s1, h1⟩; cases h1
    · rintro ⟨h1, _⟩; omega
  · simp only [if_neg h]
    have hpos : 0 < s.score := not_le.1 h
    cases hb : loadLeaderboard s.storage with
    | other =>
      simp only
      exact ⟨fun _ => ⟨hpos, Or.inl trivial⟩, fun _ => ⟨_, rfl⟩⟩
    | array board =>
      simp only
      unfold updateLeaderboardDisplay saveLeaderboard loadLeaderboard
      simp only
      by_cases hn : Item.null ∈ board
      · have hn2 : Item.null ∈ board ++ [Item.entry { score := s.score, date := now }] :=
          List.mem_append_left _ hn
        rw [if_pos hn2]
        exact ⟨fun _ => ⟨hpos, Or.inr ⟨board, rfl, hn⟩⟩, fun _ => ⟨_, rfl⟩⟩
      · have hn2 : Item.null ∉ board ++ [Item.entry { score := s.score, date := now }] := by
          intro hm
          rcases List.mem_append.1 hm with hm | hm
          · exact hn hm
          · simp at hm
        rw [if_neg hn2]
        constructor
        · rintro ⟨s1, h1⟩; cases h1
        · rintro ⟨_, h1 | ⟨b, h1, h2⟩⟩
          · cases h1
          · obtain rfl := Board.array.inj h1
            exact absurd h2 hn

theorem init_returned (cfg : Config) (st : Storage) (rs : List Sample) (s : Game)
    (h : init cfg st rs = some (.returned s)) :
    initGame cfg rs { loaded st with bestScore := loadBestScore st } = some s := by
  unfold init at h
  have hst := updateLeaderboardDisplay_state { loaded st with bestScore := loadBestScore st }
  cases hu : updateLeaderboardDisplay { loaded st with bestScore := loadBestScore st } with
  | threw s1 => rw [hu] at h; cases h
  | returned s1 =>
    rw [hu] at h hst
    simp only [Outcome.state] at hst
    subst hst
    simp only [Option.map_eq_some'] at h
    obtain ⟨a, ha, hb⟩ := h
    rw [ha, Outcome.returned.inj hb]

theorem init_threw (cfg : Config) (st : Storage) (rs : List Sample) (s : Game)
    (h : init cfg st rs = some (.threw s)) :
    s = { loaded st with bestScore := loadBestScore st } := by
  unfold init at h
  have hst := updateLeaderboardDisplay_state { loaded st with bestScore := loadBestScore st }
  cases hu : updateLeaderboardDisplay { loaded st with bestScore := loadBestScore st } with
  | threw s1 =>
    rw [hu] at h hst
    simp only [Outcome.state] at hst
    simp only [Option.some.injEq, Outcome.threw.injEq] at h
    rw [← h, hst]
  | returned s1 =>
    rw [hu] at h
    simp only [Option.map_eq_some'] at h
    obtain ⟨a, _, hb⟩ := h
    cases hb

theorem eaten_fields (s : Game) (head : Cell) :
    (eaten s head).snake = head :: s.snake ∧ (eaten s head).direction = s.nextDirection ∧
    (eaten s head).nextDirection = s.nextDirection ∧ (eaten s head).score = s.score + 10 ∧
    (eaten s head).gameInterval = s.gameInterval ∧ (eaten s head).isRunning = s.isRunning ∧
    (eaten s head).isGameOver = s.isGameOver ∧
    (eaten s head).bestScore = max s.bestScore (s.score + 10) ∧
    (eaten s head).storage.leaderboard = s.storage.leaderboard ∧
    (eaten s head).food = s.food := by
  unfold eaten
  by_cases hb : s.score + 10 > s.bestScore
  · simp only [if_pos hb, true_and, and_true]
    exact (max_eq_right (le_of_lt hb)).symm
  · simp only [if_neg hb, true_and, and_true]
    exact (max_eq_left (not_lt.1 hb)).symm

/-! ### The invariant is kept -/

theorem inv_initGame (cfg : Config) (rs : List Sample) (s s1 : Game)
    (ht : s.gameInterval = s.isRunning) (h : initGame cfg rs s = some s1) : Inv s1 := by
  obtain ⟨rx, ry, _, rfl⟩ := initGame_some _ _ _ _ h
  refine ⟨initialSnake_nodup cfg, by simp [initialSnake], Or.inr (Or.inr (Or.inr rfl)),
    Or.inr (Or.inr (Or.inr rfl)), isDir_not_rev dirRight (Or.inr (Or.inr (Or.inr rfl))),
    le_refl _, ?_⟩
  simp [ht]

theorem inv_resetGame (cfg : Config) (rs : List Sample) (s s1 : Game)
    (h : resetGame cfg rs s = some s1) : Inv s1 := by
  unfold resetGame at h
  exact inv_initGame cfg rs _ s1 (by rw [stopGameLoop_eq]) h

theorem inv_resetStart (cfg : Config) (rs : List Sample) (s s1 : Game)
    (h : (resetGame cfg rs s).map (fun s1 => startGameLoop { s1 with isRunning := true }) =
      some s1) : Inv s1 := by
  rw [Option.map_eq_some'] at h
  obtain ⟨s0, h0, rfl⟩ := h
  have hi := inv_resetGame cfg rs s s0 h0
  obtain ⟨rx, ry, _, rfl⟩ := resetGame_some _ _ _ _ h0
  rw [startGameLoop_eq]
  exact ⟨hi.nodup, hi.len, hi.dir, hi.next, hi.norev, hi.score, rfl⟩

theorem inv_toggleStartPause (cfg : Config) (rs : List Sample) (s s1 : Game) (hi : Inv s)
    (h : toggleStartPause cfg rs s = some s1) : Inv s1 := by
  unfold toggleStartPause at h
  by_cases hgo : s.isGameOver = true
  · rw [if_pos hgo] at h
    exact inv_resetStart cfg rs s s1 h
  · rw [if_neg hgo] at h
    have hgo2 : s.isGameOver = false := by simpa using hgo
    by_cases hr : (!s.isRunning) = true
    · rw [if_pos hr] at h
      obtain rfl := Option.some.inj h
      rw [startGameLoop_eq]
      exact ⟨hi.nodup, hi.len, hi.dir, hi.next, hi.norev, hi.score, by simp [hgo2]⟩
    · rw [if_neg hr] at h
      obtain rfl := Option.some.inj h
      rw [stopGameLoop_eq]
      exact ⟨hi.nodup, hi.len, hi.dir, hi.next, hi.norev, hi.score, by simp⟩

theorem inv_setNext (s : Game) (d : Cell) (hi : Inv s) (hd : IsDir d)
    (hn : d ≠ opposite s.direction) : Inv { s with nextDirection := d } :=
  ⟨hi.nodup, hi.len, hi.dir, hd, hn, hi.score, hi.timer⟩

theorem inv_keydown (cfg : Config) (rs : List Sample) (k : String) (s s1 : Game) (hi : Inv s)
    (h : keydown cfg rs k s = some s1) : Inv s1 := by
  have hd := hi.dir
  unfold keydown at h
  split_ifs at h with h1 h2 h3 h4 h5 h6 h7 h8 h9 h10
  all_goals first
    | (obtain rfl := Option.some.inj h; exact hi)
    | exact inv_resetStart cfg rs s s1 h
    | exact inv_toggleStartPause cfg rs s s1 hi h
    | skip
  · obtain rfl := Option.some.inj h
    refine inv_setNext s _ hi (Or.inl rfl) ?_
    rcases hd with hd | hd | hd | hd <;> rw [hd] at h2 ⊢ <;> first | decide | exact absurd rfl h2
  · obtain rfl := Option.some.inj h
    refine inv_setNext s _ hi (Or.inr (Or.inl rfl)) ?_
    rcases hd with hd | hd | hd | hd <;> rw [hd] at h4 ⊢ <;> first | decide | exact absurd rfl h4
  · obtain rfl := Option.some.inj h
    refine inv_setNext s _ hi (Or.inr (Or.inr (Or.inl rfl))) ?_
    rcases hd with hd | hd | hd | hd <;> rw [hd] at h6 ⊢ <;> first | decide | exact absurd rfl h6
  · obtain rfl := Option.some.inj h
    refine inv_setNext s _ hi (Or.inr (Or.inr (Or.inr rfl))) ?_
    rcases hd with hd | hd | hd | hd <;> rw [hd] at h8 ⊢ <;> first | decide | exact absurd rfl h8

/-- The outcomes of a tick from a state with a non-empty body, in one
statement: game over leaves the state, a collision ends the game, food is
eaten, or the snake moves. -/
theorem update_cases (cfg : Config) (now : String) (rs : List Sample) (s : Game) (o : Outcome)
    (seg0 : Cell) (rest : List Cell) (hs : s.snake = seg0 :: rest)
    (h : update cfg now rs s = some o) :
    (s.isGameOver = true ∧ o = .returned s) ∨
    (s.isGameOver = false ∧ (¬ insideGrid cfg (newHead s seg0) ∨ newHead s seg0 ∈ s.snake) ∧
      o = handleGameOver now { s with direction := s.nextDirection }) ∨
    (s.isGameOver = false ∧ insideGrid cfg (newHead s seg0) ∧ newHead s seg0 ∉ s.snake ∧
      newHead s seg0 = s.food ∧
      ∃ rx ry, randomPosition cfg rx ry ∉ newHead s seg0 :: s.snake ∧
        o = .returned { eaten s (newHead s seg0) with food := randomPosition cfg rx ry }) ∨
    (s.isGameOver = false ∧ insideGrid cfg (newHead s seg0) ∧ newHead s seg0 ∉ s.snake ∧
      newHead s seg0 ≠ s.food ∧
      o = .returned
        { s with direction := s.nextDirection, snake := newHead s seg0 :: s.snake.dropLast }) := by
  by_cases hgo1 : s.isGameOver = true
  · rw [update_gameOver cfg now rs s hgo1] at h
    exact Or.inl ⟨hgo1, (Option.some.inj h).symm⟩
  · have hgo : s.isGameOver = false := by simpa using hgo1
    by_cases hc : ¬ insideGrid cfg (newHead s seg0) ∨ newHead s seg0 ∈ s.snake
    · rw [update_collide cfg now rs s seg0 rest hgo hs hc] at h
      exact Or.inr (Or.inl ⟨hgo, hc, (Option.some.inj h).symm⟩)
    · have hi : insideGrid cfg (newHead s seg0) := by
        by_contra hh; exact hc (Or.inl hh)
      have hn : newHead s seg0 ∉ s.snake := fun hh => hc (Or.inr hh)
      by_cases hf : newHead s seg0 = s.food
      · rw [update_eat cfg now rs s seg0 rest hgo hs hi hn hf, Option.map_eq_some'] at h
        obtain ⟨s1, h0, rfl⟩ := h
        obtain ⟨rx, ry, h1, h2⟩ := spawnFood_some _ _ _ _ h0
        rw [(eaten_fields s (newHead s seg0)).1] at h2
        exact Or.inr (Or.inr (Or.inl ⟨hgo, hi, hn, hf, rx, ry, h2, by rw [h1]⟩))
      · rw [update_move cfg now rs s seg0 rest hgo hs hi hn hf] at h
        exact Or.inr (Or.inr (Or.inr ⟨hgo, hi, hn, hf, (Option.some.inj h).symm⟩))

theorem inv_update (cfg : Config) (now : String) (rs : List Sample) (s : Game) (o : Outcome)
    (hi : Inv s) (h : update cfg now rs s = some o) : Inv o.state := by
  have hlen := hi.len
  cases hs : s.snake with
  | nil => rw [hs] at hlen; simp at hlen
  | cons seg0 rest =>
    have hrev := isDir_not_rev s.nextDirection hi.next
    rcases update_cases cfg now rs s o seg0 rest hs h with
      ⟨_, rfl⟩ | ⟨_, _, rfl⟩ | ⟨_, _, hn, _, rx, ry, _, rfl⟩ | ⟨_, _, hn, _, rfl⟩
    · exact hi
    · rw [handleGameOver_state]
      exact ⟨hi.nodup, hi.len, hi.next, hi.next, hrev, hi.score, by simp⟩
    · obtain ⟨e1, e2, e3, e4, e5, e6, e7, _⟩ := eaten_fields s (newHead s seg0)
      refine ⟨?_, ?_, ?_, ?_, ?_, ?_, ?_⟩
      · show (eaten s (newHead s seg0)).snake.Nodup
        rw [e1]; exact List.nodup_cons.2 ⟨hn, hi.nodup⟩
      · show 2 ≤ (eaten s (newHead s seg0)).snake.length
        rw [e1, List.length_cons]; omega
      · show IsDir (eaten s (newHead s seg0)).direction
        rw [e2]; exact hi.next
      · show IsDir (eaten s (newHead s seg0)).nextDirection
        rw [e3]; exact hi.next
      · show (eaten s (newHead s seg0)).nextDirection ≠ opposite (eaten s (newHead s seg0)).direction
        rw [e2, e3]; exact hrev
      · show 0 ≤ (eaten s (newHead s seg0)).score
        rw [e4]; have := hi.score; omega
      · show (eaten s (newHead s seg0)).gameInterval =
          ((eaten s (newHead s seg0)).isRunning && !(eaten s (newHead s seg0)).isGameOver)
        rw [e5, e6, e7]; exact hi.timer
    · refine ⟨?_, ?_, hi.next, hi.next, hrev, hi.score, hi.timer⟩
      · show (newHead s seg0 :: s.snake.dropLast).Nodup
        have hsub : s.snake.dropLast.Sublist s.snake := List.dropLast_sublist _
        exact List.nodup_cons.2 ⟨fun hm => hn (hsub.subset hm), hi.nodup.sublist hsub⟩
      · show 2 ≤ (newHead s seg0 :: s.snake.dropLast).length
        rw [List.length_cons, List.length_dropLast]; omega

theorem step_tick (cfg : Config) (now : String) (rs : List Sample) (s s1 : Game)
    (h : step cfg (Event.tick now rs) s = some s1) :
    s.gameInterval = true ∧ ∃ o, update cfg now rs s = some o ∧ o.state = s1 := by
  unfold step at h
  simp only at h
  by_cases ht : s.gameInterval = true
  · rw [if_pos ht, Option.map_eq_some'] at h
    exact ⟨ht, h⟩
  · rw [if_neg ht] at h; cases h

theorem inv_step (cfg : Config) (e : Event) (s s1 : Game) (hi : Inv s)
    (h : step cfg e s = some s1) : Inv s1 := by
  cases e with
  | tick now rs =>
    obtain ⟨_, o, ho, rfl⟩ := step_tick cfg now rs s s1 h
    exact inv_update cfg now rs s o hi ho
  | key k rs => exact inv_keydown cfg rs k s s1 hi h
  | startPauseClick rs => exact inv_toggleStartPause cfg rs s s1 hi h
  | restartClick rs => exact inv_resetGame cfg rs s s1 h

theorem inv_reachable (cfg : Config) (st : Storage) (s : Game) (h : Reachable cfg st s) :
    Inv s := by
  induction h with
  | init rs s h => exact inv_initGame cfg rs _ s rfl (init_returned cfg st rs s h)
  | recover rs0 rs s0 s started _ h => exact inv_resetGame cfg rs _ s h
  | step e s s1 _ h ih => exact inv_step cfg e s s1 ih h

/-! ## The claims -/

/-- C1: on a tick from a state that is not game over, with `newHead` the old
head moved by `nextDirection`: a colliding tick ends with the body as it was;
a non-colliding tick on the food ends exactly when `spawnFood` draws a free
cell, it returns, and then the body is `newHead` followed by the whole old
body, one cell longer; a non-colliding tick off the food returns `newHead`
followed by the old body without its last cell, of the same length. -/
theorem update_body (cfg : Config) (now : String) (rs : List Sample) (s : Game)
    (seg0 : Cell) (rest : List Cell) (hgo : s.isGameOver = false) (hs : s.snake = seg0 :: rest) :
    ((¬ insideGrid cfg (newHead s seg0) ∨ newHead s seg0 ∈ s.snake) →
      ∃ o, update cfg now rs s = some o ∧ o.state.snake = s.snake ∧
        o.state.snake.length = s.snake.length) ∧
    (insideGrid cfg (newHead s seg0) → newHead s seg0 ∉ s.snake → newHead s seg0 = s.food →
      ((∃ o, update cfg now rs s = some o) ↔ DrawsFree cfg (newHead s seg0 :: s.snake) rs) ∧
      ∀ o, update cfg now rs s = some o →
        o = .returned o.state ∧ o.state.snake = newHead s seg0 :: s.snake ∧
        o.state.snake.length = s.snake.length + 1) ∧
    (insideGrid cfg (newHead s seg0) → newHead s seg0 ∉ s.snake → newHead s seg0 ≠ s.food →
      ∃ s1, update cfg now rs s = some (.returned s1) ∧
        s1.snake = newHead s seg0 :: s.snake.dropLast ∧ s1.snake.length = s.snake.length) := by
  refine ⟨?_, ?_, ?_⟩
  · intro hc
    refine ⟨_, update_collide cfg now rs s seg0 rest hgo hs hc, ?_, ?_⟩ <;>
      rw [handleGameOver_state]
  · intro hi hn hf
    have hu := update_eat cfg now rs s seg0 rest hgo hs hi hn hf
    have e1 := (eaten_fields s (newHead s seg0)).1
    constructor
    · rw [hu, ← e1, ← spawnFood_isSome_iff]
      constructor
      · rintro ⟨o, ho⟩
        rw [Option.map_eq_some'] at ho
        obtain ⟨s1, h1, _⟩ := ho
        exact ⟨s1, h1⟩
      · rintro ⟨s1, h1⟩
        exact ⟨_, by rw [h1]; rfl⟩
    · intro o h1
      rw [hu, Option.map_eq_some'] at h1
      obtain ⟨s1, h0, rfl⟩ := h1
      obtain ⟨rx, ry, rfl, _⟩ := spawnFood_some _ _ _ _ h0
      refine ⟨rfl, e1, ?_⟩
      show (eaten s (newHead s seg0)).snake.length = _
      rw [e1, List.length_cons]
  · intro hi hn hf
    refine ⟨_, update_move cfg now rs s seg0 rest hgo hs hi hn hf, rfl, ?_⟩
    show (newHead s seg0 :: s.snake.dropLast).length = s.snake.length
    rw [List.length_cons, List.length_dropLast, hs, List.length_cons]
    omega

/-- C1, the scenario: on the 10 by 10 grid the snake `[(5,5),(4,5)]` heading
right with the food at `(6,5)` becomes `[(6,5),(5,5),(4,5)]`. -/
theorem update_body_witness :
    (scenario.isGameOver = false ∧ scenario.snake = { x := 5, y := 5 } :: [{ x := 4, y := 5 }]) ∧
    ∃ o, update grid10 "noon" [zeroSample, zeroSample] scenario = some o ∧
      o.state.snake = [{ x := 6, y := 5 }, { x := 5, y := 5 }, { x := 4, y := 5 }] := by
  have h := (update_body grid10 "noon" [zeroSample, zeroSample] scenario { x := 5, y := 5 }
    [{ x := 4, y := 5 }] rfl rfl).2.1 (by decide) (by decide) (by decide)
  obtain ⟨o, h1⟩ := h.1.2 ⟨0, zeroSample, zeroSample, rfl, rfl, by decide⟩
  exact ⟨⟨rfl, rfl⟩, o, h1, (h.2 o h1).2.1⟩

/-- C2: in every state reachable from the initial load by ticks, key
presses, start/pause clicks and restarts, the cells of the body are pairwise
different; and a tick whose candidate head is a body cell ends with game
over set and the body unchanged. -/
theorem snake_nodup (cfg : Config) (st : Storage) (s : Game) (h : Reachable cfg st s) :
    s.snake.Nodup ∧
    ∀ now rs seg0 rest, s.isGameOver = false → s.snake = seg0 :: rest →
      newHead s seg0 ∈ s.snake →
      ∃ o, update cfg now rs s = some o ∧ o.state.isGameOver = true ∧
        o.state.snake = s.snake := by
  refine ⟨(inv_reachable cfg st s h).nodup, ?_⟩
  intro now rs seg0 rest hgo hs hm
  refine ⟨_, update_collide cfg now rs s seg0 rest hgo hs (Or.inr hm), ?_, ?_⟩ <;>
    rw [handleGameOver_state]

/-- C2 at the state reached by loading, pressing Start and one tick. -/
theorem snake_nodup_witness :
    ∃ s, Reachable grid10 emptyStorage s ∧
      s.snake = [{ x := 6, y := 5 }, { x := 5, y := 5 }] ∧ s.snake.Nodup := by
  have h0 : Reachable grid10 emptyStorage idleState :=
    Reachable.init [zeroSample, zeroSample] idleState (by decide)
  have h1 : Reachable grid10 emptyStorage { idleState with isRunning := true, gameInterval := true } :=
    Reachable.step (Event.startPauseClick []) idleState _ h0 (by decide)
  have h2 : Reachable grid10 emptyStorage
      { idleState with
        isRunning := true, gameInterval := true,
        snake := [{ x := 6, y := 5 }, { x := 5, y := 5 }] } :=
    Reachable.step (Event.tick "noon" []) _ _ h1 (by decide)
  exact ⟨_, h2, rfl, (snake_nodup grid10 emptyStorage _ h2).1⟩

/-- C3: whenever `spawnFood` returns, it has changed nothing but `food`,
the new food is on no cell of the snake and, on a grid with at least one tile
each way, inside the grid; it returns exactly when one of the drawn positions
is free. In `update` the food is respawned after the new head was prepended:
after a tick that eats, the new food is neither the new head nor a cell of
the old body. -/
theorem spawnFood_free (cfg : Config) (rs : List Sample) (hx : 0 < cfg.tilesX)
    (hy : 0 < cfg.tilesY) :
    (∀ s : Game, ((∃ s1, spawnFood cfg rs s = some s1) ↔ DrawsFree cfg s.snake rs) ∧
      ∀ s1, spawnFood cfg rs s = some s1 →
        s1 = { s with food := s1.food } ∧ s1.food ∉ s.snake ∧ insideGrid cfg s1.food) ∧
    (∀ (now : String) (s : Game) (o : Outcome) (seg0 : Cell) (rest : List Cell),
      s.isGameOver = false → s.snake = seg0 :: rest → insideGrid cfg (newHead s seg0) →
      newHead s seg0 ∉ s.snake → newHead s seg0 = s.food →
      update cfg now rs s = some o →
        o.state.snake = newHead s seg0 :: s.snake ∧ o.state.food ≠ newHead s seg0 ∧
        o.state.food ∉ s.snake ∧ o.state.food ∉ o.state.snake ∧
        insideGrid cfg o.state.food) := by
  constructor
  · intro s
    refine ⟨spawnFood_isSome_iff cfg rs s, ?_⟩
    intro s1 h
    obtain ⟨rx, ry, rfl, hfree⟩ := spawnFood_some _ _ _ _ h
    exact ⟨rfl, hfree, randomPosition_inside cfg rx ry hx hy⟩
  · intro now s o seg0 rest hgo hs hi hn hf h
    rw [update_eat cfg now rs s seg0 rest hgo hs hi hn hf, Option.map_eq_some'] at h
    obtain ⟨s1, h0, rfl⟩ := h
    obtain ⟨rx, ry, rfl, hfree⟩ := spawnFood_some _ _ _ _ h0
    have e1 := (eaten_fields s (newHead s seg0)).1
    rw [e1] at hfree
    refine ⟨e1, ?_, ?_, ?_, randomPosition_inside cfg rx ry hx hy⟩
    · exact fun hh => hfree (hh ▸ List.mem_cons_self _ _)
    · exact fun hh => hfree (List.mem_cons_of_mem _ hh)
    · show randomPosition cfg rx ry ∉ (eaten s (newHead s seg0)).snake
      rw [e1]; exact hfree

/-- C3, the scenario: the first drawn position `(5,5)` is on the snake and is
rejected, the second, `(0,0)`, becomes the food, off all of `(6,5)`, `(5,5)`
and `(4,5)`. -/
theorem spawnFood_free_witness :
    (0 < grid10.tilesX ∧ 0 < grid10.tilesY) ∧
    ∃ o, update grid10 "noon" [half, half, zeroSample, zeroSample] scenario = some o ∧
      o.state.food = { x := 0, y := 0 } ∧
      o.state.food ∉ [({ x := 6, y := 5 } : Cell), { x := 5, y := 5 }, { x := 4, y := 5 }] := by
  have h := (spawnFood_free grid10 [half, half, zeroSample, zeroSample]
    (by decide) (by decide)).2 "noon" scenario (.returned scenarioAfter)
    { x := 5, y := 5 } [{ x := 4, y := 5 }] rfl rfl (by decide) (by decide) (by decide)
    (by decide)
  exact ⟨⟨by decide, by decide⟩, .returned scenarioAfter, by decide, rfl, h.2.2.2.1⟩

/-- C4: in every reachable state the current direction is one of the four
deltas; a key that asks for its exact opposite leaves the state, and so the
pending direction, as it is, a key that asks for any other direction sets
`nextDirection` to it and changes nothing else; and `nextDirection` is never
the exact opposite of `direction`. -/
theorem no_reversal (cfg : Config) (st : Storage) (s : Game) (h : Reachable cfg st s) :
    IsDir s.direction ∧ s.nextDirection ≠ opposite s.direction ∧
    ∀ (rs : List Sample) (key : String) (d : Cell), requestedDirection key = some d →
      keydown cfg rs key s =
        some (if d = opposite s.direction then s else { s with nextDirection := d }) := by
  have hi := inv_reachable cfg st s h
  refine ⟨hi.dir, hi.norev, ?_⟩
  intro rs key d hk
  have hd := hi.dir
  unfold requestedDirection at hk
  unfold keydown
  split_ifs at hk with h1 h2 h3 h4
  · obtain rfl := Option.some.inj hk
    rw [if_pos h1]
    rcases hd with hd | hd | hd | hd <;> rw [hd] <;> rfl
  · obtain rfl := Option.some.inj hk
    rw [if_neg h1, if_pos h2]
    rcases hd with hd | hd | hd | hd <;> rw [hd] <;> rfl
  · obtain rfl := Option.some.inj hk
    rw [if_neg h1, if_neg h2, if_pos h3]
    rcases hd with hd | hd | hd | hd <;> rw [hd] <;> rfl
  · obtain rfl := Option.some.inj hk
    rw [if_neg h1, if_neg h2, if_neg h3, if_pos h4]
    rcases hd with hd | hd | hd | hd <;> rw [hd] <;> rfl

/-- C4 right after loading, heading right: Left is ignored, Up is taken. -/
theorem no_reversal_witness :
    Reachable grid10 emptyStorage idleState ∧
    keydown grid10 [] "ArrowLeft" idleState = some idleState ∧
    keydown grid10 [] "w" idleState = some { idleState with nextDirection := dirUp } := by
  have h0 : Reachable grid10 emptyStorage idleState :=
    Reachable.init [zeroSample, zeroSample] idleState (by decide)
  have h := (no_reversal grid10 emptyStorage idleState h0).2.2
  exact ⟨h0, h [] "ArrowLeft" dirLeft (by decide), h [] "w" dirUp (by decide)⟩

theorem scenario_reachable : Reachable grid10 emptyStorage scenario :=
  Reachable.step (Event.startPauseClick []) { scenario with isRunning := false, gameInterval := false }
    scenario (Reachable.init [sixTenths, half] _ (by decide)) (by decide)


theorem reachable_runEvents (cfg : Config) (st : Storage) (es : List Event) (s s1 : Game)
    (hs : Reachable cfg st s) (h : runEvents cfg es s = some s1) : Reachable cfg st s1 := by
  induction es generalizing s with
  | nil =>
    simp only [runEvents, Option.some.injEq] at h
    exact h ▸ hs
  | cons e es ih =>
    simp only [runEvents, Option.bind_eq_some] at h
    obtain ⟨s2, h2, h3⟩ := h
    exact ih s2 (Reachable.step e s s2 hs h2) h3

/-- C5 as stated fails: `loadLeaderboard` returns whatever the stored text
parses to. Over a store whose leaderboard item is `{}` the load throws in
`updateLeaderboardDisplay`; Restart and Start bring the game up all the
same. After one meal and the run to the right wall the colliding tick sets
game over and then throws at `board.push`: the score is 10 and the
leaderboard has received no entry. -/
theorem leaderboard_counterexample :
    Reachable grid10 objectStorage atRightWall ∧ 0 < atRightWall.score ∧
    update grid10 "noon" [] atRightWall =
      some (.threw { atRightWall with isGameOver := true, gameInterval := false }) ∧
    (Option.map (fun o => o.state.storage.leaderboard) (update grid10 "noon" [] atRightWall)) =
      some (.nonArray "{}") := by
  refine ⟨?_, by decide, by decide, by decide⟩
  have h0 : Reachable grid10 objectStorage
      { idleState with food := { x := 6, y := 5 }, storage := objectStorage } :=
    Reachable.recover [] [sixTenths, half] { loaded objectStorage with bestScore := 0 } _ false
      (by decide) (by decide)
  exact reachable_runEvents grid10 objectStorage
    [Event.startPauseClick [], Event.tick "noon" [zeroSample, zeroSample], Event.tick "noon" [],
      Event.tick "noon" [], Event.tick "noon" []] _ _ h0 (by decide)

/-- C5 amended: a tick whose candidate head is outside the grid or on the
body ends with game over set and the interval cleared; score, body, food and
best score are as before. When the stored leaderboard is an array (also: no
item, or text that does not parse, both read as the empty array), it has one
more entry at the end, carrying the score, when the score is positive; with
a score that is not positive the leaderboard is as before and the tick
returns. -/
theorem collision_game_over (cfg : Config) (now : String) (rs : List Sample) (s : Game)
    (seg0 : Cell) (rest : List Cell) (hgo : s.isGameOver = false) (hs : s.snake = seg0 :: rest)
    (hc : ¬ insideGrid cfg (newHead s seg0) ∨ newHead s seg0 ∈ s.snake) :
    ∃ o, update cfg now rs s = some o ∧ o.state.isGameOver = true ∧
      o.state.gameInterval = false ∧ o.state.score = s.score ∧ o.state.snake = s.snake ∧
      o.state.food = s.food ∧ o.state.bestScore = s.bestScore ∧
      o.state.storage.bestScore = s.storage.bestScore ∧
      (∀ board,
        (s.storage.leaderboard = .array board ∨
          (board = [] ∧ (s.storage.leaderboard = .missing ∨
            ∃ raw, s.storage.leaderboard = .malformed raw))) →
        0 < s.score →
        o.state.storage.leaderboard =
          .array (board ++ [.entry { score := s.score, date := now }])) ∧
      (s.score ≤ 0 →
        o.state.storage.leaderboard = s.storage.leaderboard ∧ o = .returned o.state) := by
  have hst := handleGameOver_state now { s with direction := s.nextDirection }
  refine ⟨_, update_collide cfg now rs s seg0 rest hgo hs hc, ?_⟩
  refine ⟨by rw [hst], by rw [hst], by rw [hst], by rw [hst], by rw [hst], by rw [hst],
    by rw [hst], ?_, ?_⟩
  · intro board hor hpos
    have hb : loadLeaderboard s.storage = .array board := by
      unfold loadLeaderboard
      rcases hor with h | ⟨rfl, h | ⟨raw, h⟩⟩ <;> rw [h]
    rw [hst]
    show boardAfterGameOver now { s with direction := s.nextDirection } = _
    unfold boardAfterGameOver
    simp only [if_neg (not_le.2 hpos), hb]
  · intro hle
    constructor
    · rw [hst]
      show boardAfterGameOver now { s with direction := s.nextDirection } = _
      unfold boardAfterGameOver
      simp only [if_pos hle]
    · have hret : handleGameOver now { s with direction := s.nextDirection } =
          .returned (stopGameLoop { s with direction := s.nextDirection, isGameOver := true }) := by
        unfold handleGameOver addScoreToLeaderboard
        simp only [stopGameLoop_eq, if_pos hle]
      rw [hret]
      rfl

/-- C5 amended, at the left wall with nothing stored: the head at `(0,5)`
heading left would get to `(-1,5)`; the game ends and the 20 points are the
one entry of the leaderboard. -/
theorem collision_game_over_witness :
    (atLeftWall.isGameOver = false ∧
      atLeftWall.snake = { x := 0, y := 5 } :: [{ x := 1, y := 5 }] ∧
      newHead atLeftWall { x := 0, y := 5 } = { x := -1, y := 5 }) ∧
    ∃ o, update grid10 "noon" [] atLeftWall = some o ∧ o.state.isGameOver = true ∧
      o.state.score = 20 ∧
      o.state.storage.leaderboard = .array [.entry { score := 20, date := "noon" }] := by
  obtain ⟨o, h1, h2, _, h4, _, _, _, _, h9, _⟩ :=
    collision_game_over grid10 "noon" [] atLeftWall { x := 0, y := 5 } [{ x := 1, y := 5 }]
      rfl rfl (Or.inl (by decide))
  exact ⟨⟨rfl, rfl, rfl⟩, o, h1, h2, h4, h9 [] (Or.inr ⟨rfl, Or.inl rfl⟩) (by decide)⟩

/-- C6: in every reachable state the score is not negative, and on every tick
from it: when the snake eats, the tick ends exactly when `spawnFood` draws a
free cell, it returns, and the score after is the score before plus 10;
otherwise (game over, collision, plain move) the tick ends and the score is
the score before; so the score never decreases. -/
theorem score_tick (cfg : Config) (st : Storage) (s : Game) (h : Reachable cfg st s) :
    0 ≤ s.score ∧
    ∀ (now : String) (rs : List Sample),
      (Eats cfg s →
        ((∃ o, update cfg now rs s = some o) ↔ DrawsFree cfg (s.food :: s.snake) rs) ∧
        ∀ o, update cfg now rs s = some o →
          o = .returned o.state ∧ o.state.score = s.score + 10) ∧
      (¬ Eats cfg s → ∃ o, update cfg now rs s = some o ∧ o.state.score = s.score) ∧
      ∀ o, update cfg now rs s = some o → s.score ≤ o.state.score ∧ 0 ≤ o.state.score := by
  have hi := inv_reachable cfg st s h
  have hsc := hi.score
  refine ⟨hsc, ?_⟩
  intro now rs
  have hlen := hi.len
  cases hs : s.snake with
  | nil => rw [hs] at hlen; simp at hlen
  | cons seg0 rest =>
    rw [← hs]
    have key : ∀ o, update cfg now rs s = some o →
        (Eats cfg s ∧ o = .returned o.state ∧ o.state.score = s.score + 10) ∨
        (¬ Eats cfg s ∧ o.state.score = s.score) := by
      intro o h1
      rcases update_cases cfg now rs s o seg0 rest hs h1 with
        ⟨hgo, rfl⟩ | ⟨_, hc, rfl⟩ | ⟨hgo, hin, hn, hf, rx, ry, _, rfl⟩ | ⟨_, _, _, hf, rfl⟩
      · right
        refine ⟨?_, rfl⟩
        rintro ⟨hgo2, _⟩
        rw [hgo] at hgo2; cases hgo2
      · right
        refine ⟨?_, by rw [handleGameOver_state]⟩
        rintro ⟨_, a, b, hab, hin, hn, _⟩
        rw [hs] at hab
        obtain rfl := (List.cons.inj hab).1
        rcases hc with hc | hc
        · exact hc hin
        · exact hn hc
      · left
        exact ⟨⟨hgo, seg0, rest, hs, hin, hn, hf⟩, rfl, (eaten_fields s (newHead s seg0)).2.2.2.1⟩
      · right
        refine ⟨?_, rfl⟩
        rintro ⟨_, a, b, hab, _, _, hf2⟩
        rw [hs] at hab
        obtain rfl := (List.cons.inj hab).1
        exact hf hf2
    refine ⟨?_, ?_, ?_⟩
    · rintro ⟨hgo, a, b, hab, hin, hn, hf⟩
      constructor
      · have hu := update_eat cfg now rs s a b hgo hab hin hn hf
        have e1 := (eaten_fields s (newHead s a)).1
        rw [hu, ← hf, ← e1, ← spawnFood_isSome_iff]
        constructor
        · rintro ⟨o, ho⟩
          rw [Option.map_eq_some'] at ho
          obtain ⟨s1, h1, _⟩ := ho
          exact ⟨s1, h1⟩
        · rintro ⟨s1, h1⟩
          exact ⟨_, by rw [h1]; rfl⟩
      · intro o h1
        rcases key o h1 with ⟨_, h2⟩ | ⟨hne, _⟩
        · exact h2
        · exact absurd ⟨hgo, a, b, hab, hin, hn, hf⟩ hne
    · intro hne
      by_cases hgo1 : s.isGameOver = true
      · exact ⟨_, update_gameOver cfg now rs s hgo1, rfl⟩
      · have hgo : s.isGameOver = false := by simpa using hgo1
        by_cases hc : ¬ insideGrid cfg (newHead s seg0) ∨ newHead s seg0 ∈ s.snake
        · exact ⟨_, update_collide cfg now rs s seg0 rest hgo hs hc, by rw [handleGameOver_state]⟩
        · have hin : insideGrid cfg (newHead s seg0) := by
            by_contra hh; exact hc (Or.inl hh)
          have hn : newHead s seg0 ∉ s.snake := fun hh => hc (Or.inr hh)
          have hf : newHead s seg0 ≠ s.food := fun hf =>
            hne ⟨hgo, seg0, rest, hs, hin, hn, hf⟩
          exact ⟨_, update_move cfg now rs s seg0 rest hgo hs hin hn hf, rfl⟩
    · intro o h1
      rcases key o h1 with ⟨_, _, h2⟩ | ⟨_, h2⟩ <;> rw [h2] <;> constructor <;> omega

/-- C6, the scenario: the tick that eats the food at `(6,5)` ends with
score 10. -/
theorem score_tick_witness :
    Reachable grid10 emptyStorage scenario ∧
    ∃ o, update grid10 "noon" [zeroSample, zeroSample] scenario = some o ∧
      o.state.score = 10 := by
  have h := (score_tick grid10 emptyStorage scenario scenario_reachable).2 "noon"
    [zeroSample, zeroSample]
  have he : Eats grid10 scenario :=
    ⟨rfl, { x := 5, y := 5 }, [{ x := 4, y := 5 }], rfl, by decide, by decide, by decide⟩
  obtain ⟨o, h1⟩ := (h.1 he).1.2 ⟨0, zeroSample, zeroSample, rfl, rfl, by decide⟩
  exact ⟨scenario_reachable, o, h1, ((h.1 he).2 o h1).2⟩

/-- C7: from any state, `resetGame` returns exactly when `spawnFood` draws a
cell off the initial body, and then the score is 0, the body is the initial
two segments, direction and pending direction are Right, the game is not
over and is idle (not running, no interval), and the best score and the
store are as before. From game over, the Start button and the Space key do
the same and then start the game: running, interval set. -/
theorem reset_session (cfg : Config) (rs : List Sample) (s : Game) :
    (((∃ s1, resetGame cfg rs s = some s1) ↔ DrawsFree cfg (initialSnake cfg) rs) ∧
      ∀ s1, resetGame cfg rs s = some s1 →
        s1.score = 0 ∧
        s1.snake = [{ x := ((cfg.tilesX / 2 : Nat) : Int), y := ((cfg.tilesY / 2 : Nat) : Int) },
          { x := ((cfg.tilesX / 2 : Nat) : Int) - 1, y := ((cfg.tilesY / 2 : Nat) : Int) }] ∧
        s1.direction = dirRight ∧ s1.nextDirection = dirRight ∧ s1.isGameOver = false ∧
        s1.isRunning = false ∧ s1.gameInterval = false ∧ s1.bestScore = s.bestScore ∧
        s1.storage = s.storage ∧ s1.food ∉ s1.snake) ∧
    (s.isGameOver = true →
      toggleStartPause cfg rs s =
        (resetGame cfg rs s).map (fun s1 => { s1 with isRunning := true, gameInterval := true }) ∧
      keydown cfg rs " " s =
        (resetGame cfg rs s).map (fun s1 => { s1 with isRunning := true, gameInterval := true })) := by
  refine ⟨⟨?_, ?_⟩, ?_⟩
  · unfold resetGame initGame
    rw [spawnFood_isSome_iff]
    rfl
  · intro s1 h
    obtain ⟨rx, ry, hfree, rfl⟩ := resetGame_some _ _ _ _ h
    exact ⟨rfl, rfl, rfl, rfl, rfl, rfl, rfl, rfl, rfl, hfree⟩
  · intro hgo
    have hfun : (fun s1 : Game => startGameLoop { s1 with isRunning := true }) =
        fun s1 => { s1 with isRunning := true, gameInterval := true } := by
      funext s1; rw [startGameLoop_eq]
    constructor
    · unfold toggleStartPause
      rw [if_pos hgo, hfun]
    · unfold keydown
      rw [if_neg (by decide), if_neg (by decide), if_neg (by decide), if_neg (by decide),
        if_pos rfl, if_pos hgo, hfun]

/-- C7 from a game that ended with 20 points and best score 30: the restart
gives score 0, the initial body `[(5,5),(4,5)]` and best score 30, idle; the
Start button gives the same state running. -/
theorem reset_session_witness :
    endedGame.isGameOver = true ∧
    resetGame grid10 [zeroSample, zeroSample] endedGame =
      some { idleState with bestScore := 30, storage := endedGame.storage } ∧
    toggleStartPause grid10 [zeroSample, zeroSample] endedGame =
      some { idleState with
        bestScore := 30, storage := endedGame.storage, isRunning := true,
        gameInterval := true } := by
  have h := reset_session grid10 [zeroSample, zeroSample] endedGame
  have hr : resetGame grid10 [zeroSample, zeroSample] endedGame =
      some { idleState with bestScore := 30, storage := endedGame.storage } := by decide
  refine ⟨rfl, hr, ?_⟩
  rw [(h.2 rfl).1, hr]
  rfl

/-- C8 as stated fails: the pause the code offers is `toggleStartPause`.
Called once on the running scenario it pauses; called a second time in a row
it resumes, so twice is not the same as once. -/
theorem pause_twice_counterexample :
    toggleStartPause grid10 [] scenario =
      some { scenario with isRunning := false, gameInterval := false } ∧
    (toggleStartPause grid10 [] scenario).bind (toggleStartPause grid10 []) = some scenario ∧
    (toggleStartPause grid10 [] scenario).bind (toggleStartPause grid10 []) ≠
      toggleStartPause grid10 [] scenario := by
  decide

/-- C8 amended: stopping the tick schedule is idempotent, and stopping a
schedule that is already stopped changes nothing. In a running game that is
not over `toggleStartPause` pauses (not running, interval cleared, all else
as before); it is a toggle, so the next call resumes (running, interval
set). -/
theorem stop_idempotent (cfg : Config) (rs : List Sample) (s : Game) :
    stopGameLoop (stopGameLoop s) = stopGameLoop s ∧
    (s.gameInterval = false → stopGameLoop s = s) ∧
    (s.isGameOver = false → s.isRunning = true →
      toggleStartPause cfg rs s = some { s with isRunning := false, gameInterval := false } ∧
      toggleStartPause cfg rs { s with isRunning := false, gameInterval := false } =
        some { s with isRunning := true, gameInterval := true }) := by
  refine ⟨?_, ?_, ?_⟩
  · rw [stopGameLoop_eq, stopGameLoop_eq]
  · intro h
    unfold stopGameLoop
    rw [h]
    rfl
  · intro hgo hr
    constructor
    · unfold toggleStartPause
      rw [hgo, hr, stopGameLoop_eq]
      rfl
    · unfold toggleStartPause
      simp only [hgo]
      rw [startGameLoop_eq]
      rfl

/-- C8 amended, on the running scenario: the first call pauses, the second
resumes. -/
theorem stop_idempotent_witness :
    (scenario.isGameOver = false ∧ scenario.isRunning = true) ∧
    toggleStartPause grid10 [] scenario =
      some { scenario with isRunning := false, gameInterval := false } ∧
    toggleStartPause grid10 [] { scenario with isRunning := false, gameInterval := false } =
      some scenario :=
  ⟨⟨rfl, rfl⟩, ((stop_idempotent grid10 [] scenario).2.2 rfl rfl).1,
    ((stop_idempotent grid10 [] scenario).2.2 rfl rfl).2⟩

/-- C9 as stated fails: `update` tests `isGameOver` only. Called in the idle
state right after loading (not running, not over) it moves the snake from
`[(5,5),(4,5)]` to `[(6,5),(5,5)]`. -/
theorem update_idle_counterexample :
    init grid10 emptyStorage [zeroSample, zeroSample] = some (.returned idleState) ∧
    idleState.isRunning = false ∧ idleState.isGameOver = false ∧
    update grid10 "noon" [] idleState =
      some (.returned { idleState with snake := [{ x := 6, y := 5 }, { x := 5, y := 5 }] }) ∧
    update grid10 "noon" [] idleState ≠ some (.returned idleState) := by
  decide

/-- C9 amended: in game over `update` returns, with the state unchanged. In
every reachable state an interval is set exactly when the game is running
and not over, so in Idle, Paused and GameOver no tick is scheduled and none
fires; `update` itself has no test of `isRunning`. -/
theorem tick_only_running (cfg : Config) (st : Storage) (s : Game) (h : Reachable cfg st s) :
    (s.isGameOver = true →
      ∀ (now : String) (rs : List Sample), update cfg now rs s = some (.returned s)) ∧
    (s.gameInterval = true ↔ s.isRunning = true ∧ s.isGameOver = false) ∧
    (s.isRunning = false ∨ s.isGameOver = true →
      s.gameInterval = false ∧
      ∀ (now : String) (rs : List Sample), step cfg (Event.tick now rs) s = none) := by
  have ht := (inv_reachable cfg st s h).timer
  refine ⟨fun hgo now rs => update_gameOver cfg now rs s hgo, ?_, ?_⟩
  · rw [ht]
    cases s.isRunning <;> cases s.isGameOver <;> simp
  · intro hor
    have hf : s.gameInterval = false := by
      rw [ht]
      rcases hor with hor | hor <;> rw [hor] <;> simp
    refine ⟨hf, fun now rs => ?_⟩
    unfold step
    simp only [hf, Bool.false_eq_true, if_false]

/-- C9 amended, right after loading: idle, no interval, no tick. -/
theorem tick_only_running_witness :
    Reachable grid10 emptyStorage idleState ∧ idleState.isRunning = false ∧
    idleState.gameInterval = false ∧ step grid10 (Event.tick "noon" []) idleState = none := by
  have h0 : Reachable grid10 emptyStorage idleState :=
    Reachable.init [zeroSample, zeroSample] idleState (by decide)
  have h := (tick_only_running grid10 emptyStorage idleState h0).2.2 (Or.inl rfl)
  exact ⟨h0, rfl, h.1, h.2 "noon" []⟩

/-! ### Best score -/

theorem keepsBest_resetGame (cfg : Config) (rs : List Sample) (s s1 : Game)
    (h : resetGame cfg rs s = some s1) : KeepsBest s s1 := by
  obtain ⟨rx, ry, _, rfl⟩ := resetGame_some _ _ _ _ h
  exact ⟨rfl, rfl, Or.inr rfl⟩

theorem keepsBest_resetStart (cfg : Config) (rs : List Sample) (s s1 : Game)
    (h : (resetGame cfg rs s).map (fun s1 => startGameLoop { s1 with isRunning := true }) =
      some s1) : KeepsBest s s1 := by
  rw [Option.map_eq_some'] at h
  obtain ⟨s0, h0, rfl⟩ := h
  obtain ⟨rx, ry, _, rfl⟩ := resetGame_some _ _ _ _ h0
  rw [startGameLoop_eq]
  exact ⟨rfl, rfl, Or.inr rfl⟩

theorem keepsBest_toggleStartPause (cfg : Config) (rs : List Sample) (s s1 : Game)
    (h : toggleStartPause cfg rs s = some s1) : KeepsBest s s1 := by
  unfold toggleStartPause at h
  split_ifs at h with h1 h2
  · exact keepsBest_resetStart cfg rs s s1 h
  · obtain rfl := Option.some.inj h
    rw [startGameLoop_eq]
    exact ⟨rfl, rfl, Or.inl rfl⟩
  · obtain rfl := Option.some.inj h
    rw [stopGameLoop_eq]
    exact ⟨rfl, rfl, Or.inl rfl⟩

theorem keepsBest_keydown (cfg : Config) (rs : List Sample) (k : String) (s s1 : Game)
    (h : keydown cfg rs k s = some s1) : KeepsBest s s1 := by
  unfold keydown at h
  split_ifs at h
  all_goals first
    | (obtain rfl := Option.some.inj h; exact ⟨rfl, rfl, Or.inl rfl⟩)
    | exact keepsBest_resetStart cfg rs s s1 h
    | exact keepsBest_toggleStartPause cfg rs s s1 h


/-! ### What is saved is what is loaded -/

theorem toDigitsCore_eq (fuel : Nat) : ∀ m ds, m < fuel →
    Nat.toDigitsCore 10 fuel m ds = Nat.toDigits 10 m ++ ds := by
  induction fuel using Nat.strong_induction_on with
  | _ fuel ih =>
    intro m ds hm
    cases fuel with
    | zero => omega
    | succ f =>
      by_cases hq : m / 10 = 0
      · have hm0 : Nat.toDigits 10 m = [Nat.digitChar (m % 10)] := by
          simp [Nat.toDigits, Nat.toDigitsCore, hq]
        rw [hm0]
        simp [Nat.toDigitsCore, hq]
      · have h1 : Nat.toDigitsCore 10 (f + 1) m ds =
            Nat.toDigitsCore 10 f (m / 10) (Nat.digitChar (m % 10) :: ds) := by
          simp [Nat.toDigitsCore, hq]
        have hmpos : 10 ≤ m := by
          by_contra hlt
          exact hq (Nat.div_eq_of_lt (by omega))
        have h2 : Nat.toDigits 10 m =
            Nat.toDigitsCore 10 m (m / 10) [Nat.digitChar (m % 10)] := by
          obtain ⟨k, rfl⟩ : ∃ k, m = k + 1 := ⟨m - 1, by omega⟩
          simp [Nat.toDigits, Nat.toDigitsCore, hq]
        have hdiv : m / 10 < m := Nat.div_lt_self (by omega) (by omega)
        rw [h1, h2, ih f (by omega) (m / 10) _ (by omega), ih m (by omega) (m / 10) _ hdiv]
        simp

theorem toDigits_small (m : Nat) (h : m < 10) : Nat.toDigits 10 m = [Nat.digitChar m] := by
  have hq : m / 10 = 0 := Nat.div_eq_of_lt h
  simp [Nat.toDigits, Nat.toDigitsCore, hq, Nat.mod_eq_of_lt h]

theorem toDigits_big (m : Nat) (h : 10 ≤ m) :
    Nat.toDigits 10 m = Nat.toDigits 10 (m / 10) ++ [Nat.digitChar (m % 10)] := by
  have hq : m / 10 ≠ 0 := by
    intro h0
    have := Nat.div_add_mod m 10
    have := Nat.mod_lt m (show 0 < 10 by omega)
    omega
  obtain ⟨k, rfl⟩ : ∃ k, m = k + 1 := ⟨m - 1, by omega⟩
  have hdiv : (k + 1) / 10 < k + 1 := Nat.div_lt_self (by omega) (by omega)
  have : Nat.toDigits 10 (k + 1) =
      Nat.toDigitsCore 10 (k + 1) ((k + 1) / 10) [Nat.digitChar ((k + 1) % 10)] := by
    simp [Nat.toDigits, Nat.toDigitsCore, hq]
  rw [this, toDigitsCore_eq (k + 1) _ _ hdiv]


theorem digitChar_facts (k : Nat) (h : k < 10) :
    (Nat.digitChar k).isDigit = true ∧ (Nat.digitChar k).toNat - 48 = k ∧
    isStrWhiteSpace (Nat.digitChar k) = false ∧ ((Nat.digitChar k) == '-') = false ∧
    ((Nat.digitChar k) == '+') = false := by
  interval_cases k <;> decide

theorem parseDigits_snoc (l : List Char) (k : Nat) (hk : k < 10)
    (hl : ∀ c ∈ l, ∃ j, j < 10 ∧ c = Nat.digitChar j) :
    ∀ acc, parseDigits (l ++ [Nat.digitChar k]) acc = parseDigits l acc * 10 + k := by
  induction l with
  | nil =>
    intro acc
    obtain ⟨h1, h2, _⟩ := digitChar_facts k hk
    simp [parseDigits, h1, h2]
  | cons c l ih =>
    intro acc
    obtain ⟨j, hj, rfl⟩ := hl c (List.mem_cons_self _ _)
    obtain ⟨h1, h2, _⟩ := digitChar_facts j hj
    have ih2 := ih (fun c hc => hl c (List.mem_cons_of_mem _ hc))
    simp only [List.cons_append, parseDigits, h1, if_true, h2]
    exact ih2 _

theorem toDigits_spec (n : Nat) :
    (∀ c ∈ Nat.toDigits 10 n, ∃ j, j < 10 ∧ c = Nat.digitChar j) ∧
    parseDigits (Nat.toDigits 10 n) 0 = n ∧
    ∃ k rest, k < 10 ∧ Nat.toDigits 10 n = Nat.digitChar k :: rest := by
  induction n using Nat.strong_induction_on with
  | _ n ih =>
    by_cases h : n < 10
    · rw [toDigits_small n h]
      obtain ⟨h1, h2, _⟩ := digitChar_facts n h
      refine ⟨?_, ?_, n, [], h, rfl⟩
      · intro c hc
        rw [List.mem_singleton] at hc
        exact ⟨n, h, hc⟩
      · simp [parseDigits, h1, h2]
    · have h10 : 10 ≤ n := not_lt.1 h
      have hdiv : n / 10 < n := Nat.div_lt_self (by omega) (by omega)
      have hmod : n % 10 < 10 := Nat.mod_lt n (by omega)
      obtain ⟨i1, i2, k, rest, hk, i3⟩ := ih (n / 10) hdiv
      rw [toDigits_big n h10]
      refine ⟨?_, ?_, k, rest ++ [Nat.digitChar (n % 10)], hk, by rw [i3]; rfl⟩
      · intro c hc
        rcases List.mem_append.1 hc with hc | hc
        · exact i1 c hc
        · rw [List.mem_singleton] at hc
          exact ⟨n % 10, hmod, hc⟩
      · rw [parseDigits_snoc _ _ hmod i1, i2]
        exact Nat.div_add_mod' n 10

theorem parseInt_toString (v : Int) : parseInt (toString v) = some v := by
  cases v with
  | ofNat n =>
    obtain ⟨_, h2, k, rest, hk, h3⟩ := toDigits_spec n
    obtain ⟨d1, _, d3, d4, d5⟩ := digitChar_facts k hk
    have hl : (toString (Int.ofNat n)).toList = Nat.digitChar k :: rest := h3 ▸ rfl
    unfold parseInt
    rw [hl]
    simp only [List.dropWhile, d3, d4, d5, Bool.or_self, Bool.false_eq_true, if_false, d1, if_true]
    rw [← h3, h2]
    rfl
  | negSucc m =>
    obtain ⟨_, h2, k, rest, hk, h3⟩ := toDigits_spec (m + 1)
    obtain ⟨d1, _, d3, d4, d5⟩ := digitChar_facts k hk
    have hl : (toString (Int.negSucc m)).toList = '-' :: Nat.digitChar k :: rest := h3 ▸ rfl
    have hw : isStrWhiteSpace '-' = false := by decide
    unfold parseInt
    rw [hl]
    simp only [List.dropWhile, hw, beq_self_eq_true, Bool.true_or, if_true, d1]
    rw [← h3, h2]
    rfl

theorem toString_ne_empty (v : Int) : toString v ≠ "" := by
  intro h
  have h1 := parseInt_toString v
  have h0 : parseInt "" = none := by decide
  rw [h, h0] at h1
  cases h1

theorem loadBestScore_saveBestScore (v : Int) (s : Game) :
    loadBestScore (saveBestScore v s).storage = v := by
  unfold loadBestScore saveBestScore
  simp only [if_neg (toString_ne_empty v), parseInt_toString]

/-! ### Ticks and the best score -/

theorem tick_split (cfg : Config) (now : String) (rs : List Sample) (s : Game) (o : Outcome)
    (h : update cfg now rs s = some o) :
    (Eats cfg s ∧ ∃ seg0 rx ry,
      o = .returned { eaten s (newHead s seg0) with food := randomPosition cfg rx ry }) ∨
    (¬ Eats cfg s ∧ o.state.score = s.score ∧ o.state.bestScore = s.bestScore ∧
      o.state.storage.bestScore = s.storage.bestScore) := by
  cases hs : s.snake with
  | nil =>
    right
    have hne : ¬ Eats cfg s := by
      rintro ⟨_, a, b, hab, _⟩
      rw [hs] at hab; cases hab
    by_cases hgo1 : s.isGameOver = true
    · rw [update_gameOver cfg now rs s hgo1] at h
      obtain rfl := Option.some.inj h
      exact ⟨hne, rfl, rfl, rfl⟩
    · have hgo : s.isGameOver = false := by simpa using hgo1
      rw [update_nil cfg now rs s hgo hs] at h
      obtain rfl := Option.some.inj h
      exact ⟨hne, rfl, rfl, rfl⟩
  | cons seg0 rest =>
    rcases update_cases cfg now rs s o seg0 rest hs h with
      ⟨hgo, rfl⟩ | ⟨_, hc, rfl⟩ | ⟨hgo, hin, hn, hf, rx, ry, _, rfl⟩ | ⟨_, _, _, hf, rfl⟩
    · right
      refine ⟨?_, rfl, rfl, rfl⟩
      rintro ⟨hgo2, _⟩
      rw [hgo] at hgo2; cases hgo2
    · right
      refine ⟨?_, by rw [handleGameOver_state], by rw [handleGameOver_state],
        by rw [handleGameOver_state]⟩
      rintro ⟨_, a, b, hab, hin, hn, _⟩
      rw [hs] at hab
      obtain rfl := (List.cons.inj hab).1
      rcases hc with hc | hc
      · exact hc hin
      · exact hn hc
    · left
      exact ⟨⟨hgo, seg0, rest, hs, hin, hn, hf⟩, seg0, rx, ry, rfl⟩
    · right
      refine ⟨?_, rfl, rfl, rfl⟩
      rintro ⟨_, a, b, hab, _, _, hf2⟩
      rw [hs] at hab
      obtain rfl := (List.cons.inj hab).1
      exact hf hf2

/-- What a tick does to the best score and its stored copy, from any state. -/
theorem update_bestScore (cfg : Config) (now : String) (rs : List Sample) (s : Game)
    (o : Outcome) (h : update cfg now rs s = some o) :
    (o.state.bestScore ≠ s.bestScore →
      s.bestScore < o.state.score ∧ o.state.bestScore = o.state.score ∧
      o.state.storage.bestScore = some (toString o.state.bestScore)) ∧
    (o.state.bestScore = s.bestScore → o.state.storage.bestScore = s.storage.bestScore) ∧
    (Eats cfg s → o.state.bestScore = max s.bestScore o.state.score) ∧
    (¬ Eats cfg s → o.state.bestScore = s.bestScore) := by
  rcases tick_split cfg now rs s o h with ⟨he, seg0, rx, ry, rfl⟩ | ⟨hne, _, hb, hst⟩
  · show ((eaten s (newHead s seg0)).bestScore ≠ s.bestScore →
        s.bestScore < (eaten s (newHead s seg0)).score ∧
        (eaten s (newHead s seg0)).bestScore = (eaten s (newHead s seg0)).score ∧
        (eaten s (newHead s seg0)).storage.bestScore =
          some (toString (eaten s (newHead s seg0)).bestScore)) ∧
      ((eaten s (newHead s seg0)).bestScore = s.bestScore →
        (eaten s (newHead s seg0)).storage.bestScore = s.storage.bestScore) ∧
      (Eats cfg s →
        (eaten s (newHead s seg0)).bestScore = max s.bestScore (eaten s (newHead s seg0)).score) ∧
      (¬ Eats cfg s → (eaten s (newHead s seg0)).bestScore = s.bestScore)
    unfold eaten
    by_cases hgt : s.score + 10 > s.bestScore
    · rw [if_pos hgt]
      refine ⟨fun _ => ⟨hgt, rfl, rfl⟩, fun heq => absurd heq (ne_of_gt hgt),
        fun _ => (max_eq_right (le_of_lt hgt)).symm, fun hne => absurd he hne⟩
    · rw [if_neg hgt]
      refine ⟨fun hne => absurd rfl hne, fun _ => rfl,
        fun _ => (max_eq_left (not_lt.1 hgt)).symm, fun _ => rfl⟩
  · exact ⟨fun hne2 => absurd hb hne2, fun _ => hst, fun he => absurd he hne, fun _ => hb⟩

theorem update_bestScore_max (cfg : Config) (now : String) (rs : List Sample) (s : Game)
    (o : Outcome) (hle : s.score ≤ s.bestScore) (h : update cfg now rs s = some o) :
    o.state.bestScore = max s.bestScore o.state.score := by
  by_cases he : Eats cfg s
  · exact (update_bestScore cfg now rs s o h).2.2.1 he
  · rcases tick_split cfg now rs s o h with ⟨he2, _⟩ | ⟨_, hsc, hb, _⟩
    · exact absurd he2 he
    · rw [hb, hsc]; exact (max_eq_left hle).symm

theorem bestInv_of_keeps (s s1 : Game) (hb : BestInv s) (hk : KeepsBest s s1) : BestInv s1 := by
  obtain ⟨h1, _, h3⟩ := hk
  unfold BestInv at *
  rcases h3 with h3 | h3 <;> rw [h1, h3] <;> constructor <;> omega

theorem bestInv_step (cfg : Config) (e : Event) (s s1 : Game) (hb : BestInv s)
    (h : step cfg e s = some s1) : BestInv s1 := by
  cases e with
  | tick now rs =>
    obtain ⟨_, o, ho, rfl⟩ := step_tick cfg now rs s s1 h
    have h1 := update_bestScore_max cfg now rs s o hb.2 ho
    unfold BestInv
    rw [h1]
    exact ⟨le_trans hb.1 (le_max_left _ _), le_max_right _ _⟩
  | key k rs => exact bestInv_of_keeps s s1 hb (keepsBest_keydown cfg rs k s s1 h)
  | startPauseClick rs =>
    exact bestInv_of_keeps s s1 hb (keepsBest_toggleStartPause cfg rs s s1 h)
  | restartClick rs => exact bestInv_of_keeps s s1 hb (keepsBest_resetGame cfg rs s s1 h)

theorem init_bestScore (cfg : Config) (st : Storage) (rs : List Sample) (o : Outcome)
    (h : init cfg st rs = some o) :
    o.state.bestScore = loadBestScore st ∧ o.state.score = 0 ∧ o.state.storage = st := by
  cases o with
  | returned s =>
    obtain ⟨rx, ry, _, rfl⟩ := initGame_some _ _ _ _ (init_returned cfg st rs s h)
    exact ⟨rfl, rfl, rfl⟩
  | threw s =>
    rw [init_threw cfg st rs s h]
    exact ⟨rfl, rfl, rfl⟩

theorem bestInv_reachable (cfg : Config) (st : Storage) (s : Game) (hst : 0 ≤ loadBestScore st)
    (h : Reachable cfg st s) : BestInv s := by
  induction h with
  | init rs s h =>
    obtain ⟨h1, h2, _⟩ := init_bestScore cfg st rs _ h
    unfold BestInv
    simp only [Outcome.state] at h1 h2
    rw [h1, h2]
    exact ⟨hst, hst⟩
  | recover rs0 rs s0 s started h0 h =>
    obtain ⟨h1, _, _⟩ := init_bestScore cfg st rs0 _ h0
    simp only [Outcome.state] at h1
    obtain ⟨rx, ry, _, rfl⟩ := resetGame_some _ _ _ _ h
    unfold BestInv
    simp only
    rw [h1]
    exact ⟨hst, hst⟩
  | step e s s1 _ h ih => exact bestInv_step cfg e s s1 ih h

/-- C10 as stated fails: `loadBestScore` returns whatever integer the stored
item parses to. With `-5` stored, the state after loading has best score -5,
below 0 and below the score 0; after Start and a tick that does not eat, the
best score is still -5, not the maximum of -5 and the score 0. -/
theorem bestScore_counterexample :
    loadBestScore negativeStorage = -5 ∧
    init grid10 negativeStorage [zeroSample, zeroSample] = some (.returned negativeLoaded) ∧
    negativeLoaded.bestScore < 0 ∧ negativeLoaded.bestScore < negativeLoaded.score ∧
    (((step grid10 (Event.startPauseClick []) negativeLoaded).bind
        (step grid10 (Event.tick "noon" []))).map
      (fun s1 => (s1.score, s1.bestScore, decide (s1.bestScore = max (-5) s1.score)))) =
      some (0, -5, false) := by
  decide

/-- C10 amended. The best score after loading is the value `loadBestScore`
reads: 0 when the item is missing, empty or not a number, else the integer
`parseInt` finds, which for an item written by `saveBestScore` is the value
saved. On every tick, from any state, the best score changes only to a score
that exceeds it, the store then holds the new value and is untouched when the
best score did not change; it is the maximum of the best score before and the
score after when the tick eats and unchanged otherwise (game over, collision,
plain move). Key presses, the Start/Pause button and Restart leave the best
score and its stored copy as they are. When the loaded value is not negative,
every reachable state has `0 ≤ bestScore` and `score ≤ bestScore`, and after
every tick the best score is the maximum of the best score before and the
score after. -/
theorem bestScore_tick (cfg : Config) (st : Storage) :
    ((st.bestScore = none ∨ st.bestScore = some "" → loadBestScore st = 0) ∧
      (∀ raw, st.bestScore = some raw → parseInt raw = none → loadBestScore st = 0) ∧
      (∀ raw v, st.bestScore = some raw → raw ≠ "" → parseInt raw = some v →
        loadBestScore st = v) ∧
      (∀ (v : Int) (s : Game), loadBestScore (saveBestScore v s).storage = v) ∧
      (∀ rs o, init cfg st rs = some o → o.state.bestScore = loadBestScore st)) ∧
    (∀ (s : Game) (now : String) (rs : List Sample) (o : Outcome),
      update cfg now rs s = some o →
        (o.state.bestScore ≠ s.bestScore →
          s.bestScore < o.state.score ∧ o.state.bestScore = o.state.score ∧
          o.state.storage.bestScore = some (toString o.state.bestScore)) ∧
        (o.state.bestScore = s.bestScore → o.state.storage.bestScore = s.storage.bestScore) ∧
        (Eats cfg s → o.state.bestScore = max s.bestScore o.state.score) ∧
        (¬ Eats cfg s → o.state.bestScore = s.bestScore)) ∧
    (∀ (s : Game) (rs : List Sample) (s1 : Game),
      ((∃ k, keydown cfg rs k s = some s1) ∨ toggleStartPause cfg rs s = some s1 ∨
        resetGame cfg rs s = some s1) →
      s1.bestScore = s.bestScore ∧ s1.storage.bestScore = s.storage.bestScore) ∧
    (0 ≤ loadBestScore st → ∀ s, Reachable cfg st s →
      0 ≤ s.bestScore ∧ s.score ≤ s.bestScore ∧
      ∀ (now : String) (rs : List Sample) (o : Outcome), update cfg now rs s = some o →
        o.state.bestScore = max s.bestScore o.state.score) := by
  refine ⟨⟨?_, ?_, ?_, loadBestScore_saveBestScore, ?_⟩, ?_, ?_, ?_⟩
  · intro h
    unfold loadBestScore
    rcases h with h | h <;> rw [h]
    simp only [if_true]
  · intro raw h hp
    unfold loadBestScore
    rw [h]
    simp only [hp]
    by_cases he : raw = ""
    · rw [if_pos he]
    · rw [if_neg he]
  · intro raw v h hne hp
    unfold loadBestScore
    rw [h]
    simp only [if_neg hne, hp]
  · intro rs o h
    exact (init_bestScore cfg st rs o h).1
  · intro s now rs o h
    exact update_bestScore cfg now rs s o h
  · intro s rs s1 hor
    have hk : KeepsBest s s1 := by
      rcases hor with ⟨k, hk⟩ | hk | hk
      · exact keepsBest_keydown cfg rs k s s1 hk
      · exact keepsBest_toggleStartPause cfg rs s s1 hk
      · exact keepsBest_resetGame cfg rs s s1 hk
    exact ⟨hk.1, by rw [hk.2.1]⟩
  · intro hst s h
    have hb := bestInv_reachable cfg st s hst h
    exact ⟨hb.1, hb.2, fun now rs o ho => update_bestScore_max cfg now rs s o hb.2 ho⟩

/-- C10 amended, on concrete stores and the scenario: nothing stored, an
empty item and `abc` load as 0, `42px` as 42; with nothing stored the
scenario is reached with best score 0, and the tick that eats raises it to 10
and stores `10`. -/
theorem bestScore_tick_witness :
    loadBestScore emptyStorage = 0 ∧
    loadBestScore { bestScore := some "", leaderboard := .missing } = 0 ∧
    loadBestScore { bestScore := some "abc", leaderboard := .missing } = 0 ∧
    loadBestScore { bestScore := some "42px", leaderboard := .missing } = 42 ∧
    Reachable grid10 emptyStorage scenario ∧
    update grid10 "noon" [zeroSample, zeroSample] scenario = some (.returned scenarioAfter) ∧
    scenarioAfter.bestScore = 10 ∧ scenarioAfter.storage.bestScore = some "10" := by
  have h := bestScore_tick grid10 emptyStorage
  have hu : update grid10 "noon" [zeroSample, zeroSample] scenario =
      some (.returned scenarioAfter) := by decide
  have h1 := (h.2.2.2 (by decide) scenario scenario_reachable).2.2 _ _ _ hu
  have h2 := (h.2.1 scenario _ _ _ hu).1 (by decide)
  exact ⟨h.1.1 (Or.inl rfl), by decide, by decide, by decide, scenario_reachable, hu, h1, h2.2.2⟩

end Snake
